import Mathlib

/-!
# imgapi: the image retrieval pipeline

A shallow embedding of the Go packages `internal/processing`, `internal/storage`,
`internal/service` and `internal/httpapi`.

Conventions of the embedding.

* A Go `string` is a Lean `String`, read as its sequence of runes (`String.data`);
  strings are taken to be valid UTF-8. The strings the code inspects byte by byte are
  inspected here rune by rune; the bytes the code looks for (`.`, `/`, `*`, digits,
  signs) are ASCII, and an ASCII byte of a UTF-8 string is always a rune of its own.
* A Go `[]byte` is a `List UInt8`.
* A Go `int` holding a request parameter is an `Int`; where the code does arithmetic
  that can wrap (`CopyLimit`, `strconv.Atoi`) the 64-bit range is explicit.
* A Go function returning `(value, error)` returns `Except Err value`.
* Functions of the Go standard library and of the imaging library that the code calls
  are either written out from their Go source (package `strings`, `strconv`, `path`,
  `path/filepath`, `io`, `encoding/hex`) or, for the image codecs and the Unicode case
  table, taken as parameters.
-/

namespace Imgapi

/-- Byte slices. -/
abbrev Bytes := List UInt8

/-- The errors the code produces or passes on. -/
inductive Err where
  /-- An error raised inside a codec or another library call. -/
  | lib (msg : String)
  /-- The sentinel `errUnsupported`, wrapping a format name when there is one. -/
  | unsupported (format : Option String)
  /-- The error `os.ErrNotExist`. -/
  | notExist
  /-- The error `filepath.ErrBadPattern`. -/
  | badPattern
  /-- The error of `CopyLimit`: payload too large, with the limit. -/
  | tooLarge (limit : Int)
  /-- The error `strconv.ErrSyntax`. -/
  | syntaxErr
  /-- The error `strconv.ErrRange`. -/
  | rangeErr
  /-- An I/O failure of the file system. -/
  | io
  deriving DecidableEq, Repr

deriving instance DecidableEq for Except

/-! ## Package `strings` and `unicode` of the Go standard library -/

/-- The rune is an ASCII upper-case letter. -/
def isUpperASCII (c : Char) : Bool := decide ('A' ≤ c) && decide (c ≤ 'Z')

/-- Go `unicode.ToLower`: ASCII letters are shifted by 32, other ASCII runes are kept, and
a rune above ASCII is looked up in the Unicode case table `tl`. -/
def toLowerRune (tl : Char → Char) (c : Char) : Char :=
  if c.toNat ≤ 0x7F then
    if isUpperASCII c then Char.ofNat (c.toNat + 32) else c
  else tl c

/-- Go `strings.ToLower`. -/
def ToLower (tl : Char → Char) (s : String) : String :=
  ⟨s.data.map (toLowerRune tl)⟩

/-- Go `unicode.IsSpace`: the White_Space property. -/
def isSpace (c : Char) : Bool :=
  let n := c.toNat
  (0x09 ≤ n && n ≤ 0x0D) || n == 0x20 || n == 0x85 || n == 0xA0 || n == 0x1680 ||
  (0x2000 ≤ n && n ≤ 0x200A) || n == 0x2028 || n == 0x2029 || n == 0x202F ||
  n == 0x205F || n == 0x3000

/-- Go `strings.TrimSpace`: leading and trailing white space removed. -/
def TrimSpace (s : String) : String :=
  ⟨((s.data.dropWhile isSpace).reverse.dropWhile isSpace).reverse⟩

/-- The list `p` occurs in `l` as a contiguous block. -/
def containsList (p : List Char) : List Char → Bool
  | [] => p.isEmpty
  | c :: cs => p.isPrefixOf (c :: cs) || containsList p cs

/-- Go `strings.Contains`. -/
def Contains (s sub : String) : Bool := containsList sub.data s.data

/-- Go `strings.TrimPrefix`. -/
def TrimPrefix (s pre : String) : String :=
  if pre.data.isPrefixOf s.data then ⟨s.data.drop pre.data.length⟩ else s

/-- Go `strings.HasPrefix`. -/
def HasPrefix (s pre : String) : Bool := pre.data.isPrefixOf s.data

/-! ## Package `processing` -/

/-- The constant `FormatJPEG`. -/
def FormatJPEG : String := "jpeg"

/-- The constant `FormatPNG`. -/
def FormatPNG : String := "png"

/-- The image codecs and filters the code calls: `image.DecodeConfig` (the registered
format name), `image.Decode`, `imaging.Grayscale`, `imaging.Thumbnail`, `imaging.Resize`
(both with the Lanczos filter), `jpeg.Encode` with a quality and `png.Encode`. -/
structure Lib (Img : Type) where
  decodeConfig : Bytes → Except Err String
  decode : Bytes → Except Err Img
  grayscale : Img → Img
  thumbnail : Img → Int → Int → Img
  resize : Img → Int → Int → Img
  jpegEncode : Img → Int → Except Err Bytes
  pngEncode : Img → Except Err Bytes

/-- The function `DetectFormat`. -/
def DetectFormat {Img : Type} (L : Lib Img) (tl : Char → Char) (b : Bytes) :
    Except Err String :=
  match L.decodeConfig b with
  | .error e => .error e
  | .ok format =>
    let f := ToLower tl format
    if f = "jpeg" ∨ f = "jpg" then .ok FormatJPEG
    else if f = "png" then .ok FormatPNG
    else .error (.unsupported (some format))

/-- The struct `Options`. -/
structure Options where
  Target : String
  Quality : Int
  Grayscale : Bool
  Width : Int
  Height : Int
  Thumbnail : Bool
  deriving DecidableEq, Repr

/-- The zero value `processing.Options{}`. -/
def Options.zero : Options := ⟨"", 0, false, 0, 0, false⟩

/-- The method `Options.IsNoop`. -/
def Options.IsNoop (o : Options) : Bool :=
  !o.Grayscale && o.Width == 0 && o.Height == 0 && o.Thumbnail == false && o.Target == ""

/-- The content type the no-op path of `Process` and of the service reports. -/
def noopContentType (detected : Except Err String) : String :=
  match detected with
  | .error _ => "application/octet-stream"
  | .ok f =>
    if f = FormatJPEG then "image/jpeg"
    else if f = FormatPNG then "image/png"
    else "application/octet-stream"

/-- The filter and resize steps of `Process` on the decoded raster. -/
def transform {Img : Type} (L : Lib Img) (opts : Options) (img : Img) : Img :=
  let img := if opts.Grayscale then L.grayscale img else img
  if opts.Width > 0 ∨ opts.Height > 0 then
    if opts.Thumbnail = true ∧ opts.Width > 0 ∧ opts.Height > 0 then
      L.thumbnail img opts.Width opts.Height
    else
      L.resize img opts.Width opts.Height
  else img

/-- The output format `Process` chooses: the target, else the detected format, else PNG. -/
def chooseTarget {Img : Type} (L : Lib Img) (tl : Char → Char) (inp : Bytes)
    (opts : Options) : String :=
  if opts.Target = "" then
    match DetectFormat L tl inp with
    | .ok f => f
    | .error _ => FormatPNG
  else opts.Target

/-- The quality `Process` hands to the JPEG encoder. -/
def jpegQuality (opts : Options) : Int :=
  if opts.Quality ≤ 0 ∨ opts.Quality > 100 then 85 else opts.Quality

/-- The encoding step of `Process`. -/
def encode {Img : Type} (L : Lib Img) (target : String) (opts : Options) (img : Img) :
    Except Err (Bytes × String) :=
  if target = FormatJPEG then
    match L.jpegEncode img (jpegQuality opts) with
    | .error e => .error e
    | .ok out => .ok (out, "image/jpeg")
  else if target = FormatPNG then
    match L.pngEncode img with
    | .error e => .error e
    | .ok out => .ok (out, "image/png")
  else .error (.unsupported none)

/-- The function `Process`. -/
def Process {Img : Type} (L : Lib Img) (tl : Char → Char) (inp : Bytes) (opts : Options) :
    Except Err (Bytes × String) :=
  if opts.IsNoop then
    .ok (inp, noopContentType (DetectFormat L tl inp))
  else
    match L.decode inp with
    | .error e => .error e
    | .ok img => encode L (chooseTarget L tl inp opts) opts (transform L opts img)

/-- The function `ParseBool`. -/
def ParseBool (tl : Char → Char) (s : String) : Bool :=
  let s := TrimSpace (ToLower tl s)
  s == "1" || s == "true" || s == "yes" || s == "on"

/-! ## Package `strconv` of the Go standard library -/

/-- The size of a Go `int` in bits (`strconv.IntSize` on a 64-bit platform). -/
def intSize : Nat := 64

/-- The rune is a decimal digit. -/
def isDigit (c : Char) : Bool := decide ('0' ≤ c) && decide (c ≤ '9')

/-- The value of a decimal digit. -/
def digitVal (c : Char) : Nat := c.toNat - '0'.toNat

/-- The digit loop of the fast path of `strconv.Atoi`: `none` is a syntax error. -/
def atoiFast : List Char → Int → Option Int
  | [], n => some n
  | ch :: rest, n =>
    if isDigit ch then atoiFast rest (n * 10 + digitVal ch) else none

/-- The digit loop of `strconv.ParseUint` in base 10 with `bitSize` 64, on `uint64`
arithmetic: the value so far and the error. A rune that is no decimal digit is a syntax
error (a letter has a digit value of 10 or more, the underscore is not accepted in an
explicit base). -/
def parseUintLoop : List Char → Nat → Nat × Option Err
  | [], n => (n, none)
  | c :: rest, n =>
    if isDigit c then
      let d := digitVal c
      let cutoff := (2 ^ 64 - 1) / 10 + 1
      let maxVal := 2 ^ 64 - 1
      if n ≥ cutoff then (maxVal, some .rangeErr)
      else
        let n := (n * 10) % 2 ^ 64
        let n1 := (n + d) % 2 ^ 64
        if n1 < n ∨ n1 > maxVal then (maxVal, some .rangeErr)
        else parseUintLoop rest n1
    else (0, some .syntaxErr)

/-- Go `strconv.ParseUint(s, 10, 0)`. -/
def ParseUint (s : List Char) : Nat × Option Err :=
  if s = [] then (0, some .syntaxErr) else parseUintLoop s 0

/-- Go `strconv.ParseInt(s, 10, 0)`: on a range error the value is the largest magnitude
of the sign. -/
def strconvParseInt (s : List Char) : Int × Option Err :=
  match s with
  | [] => (0, some .syntaxErr)
  | c :: rest =>
    let neg := c = '-'
    let s := if c = '+' ∨ c = '-' then rest else c :: rest
    let (un, err) := ParseUint s
    if err = some .syntaxErr then (0, err)
    else
      let cutoff : Nat := 2 ^ (intSize - 1)
      if ¬ neg ∧ un ≥ cutoff then ((cutoff : Int) - 1, some .rangeErr)
      else if neg ∧ un > cutoff then (-(cutoff : Int), some .rangeErr)
      else (if neg then -(un : Int) else (un : Int), none)

/-- Go `strconv.Atoi`: the value and the error. Strings of 1 to 18 bytes take the fast
path, the others go through `ParseInt`. -/
def Atoi (s : String) : Int × Option Err :=
  let sLen := s.utf8ByteSize
  if 0 < sLen ∧ sLen < 19 then
    match s.data with
    | [] => (0, some .syntaxErr)
    | c :: rest =>
      let digits := if c = '-' ∨ c = '+' then rest else c :: rest
      if digits = [] then (0, some .syntaxErr)
      else
        match atoiFast digits 0 with
        | none => (0, some .syntaxErr)
        | some n => (if c = '-' then -n else n, none)
  else strconvParseInt s.data

/-- The function `ParseInt`: the value of `strconv.Atoi`, its error dropped. -/
def ParseInt (s : String) : Int := (Atoi s).1

/-- The number a string of decimal digits denotes. -/
def decValue (ds : List Char) : Nat := ds.foldl (fun n c => n * 10 + digitVal c) 0

/-! ## Package `io`: `CopyLimit` -/

/-- An `int64` computation wraps around. -/
def wrapInt64 (x : Int) : Int := (x + 2 ^ 63) % 2 ^ 64 - 2 ^ 63

/-- The constant `bytes.MinRead`: the room a `bytes.Buffer` offers to each `Read`. -/
def minRead : Nat := 512

/-- One call of `io.LimitedReader.Read` with a buffer of `plen` bytes over a source that
still holds `src`: the bytes read, whether the call reported `io.EOF`, the new `N` and
what the source still holds. The source hands out all that fits and reports `io.EOF`
once it is empty (as `bytes.Reader` and the service's `bytesReaderT` do). -/
def limitedRead (N : Int) (src : Bytes) (plen : Nat) : Bytes × Bool × Int × Bytes :=
  if N ≤ 0 then ([], true, N, src)
  else
    let plen := if (plen : Int) > N then N.toNat else plen
    if src = [] then ([], true, N, src)
    else (src.take plen, false, N - ((src.take plen).length : Int), src.drop plen)

/-- The loop of `bytes.Buffer.ReadFrom` that `io.Copy` runs: read until `io.EOF`. The
first argument bounds the number of rounds; each round but the last takes a byte from
the source, so one round more than the source has bytes always reaches `io.EOF`. -/
def readFrom : Nat → Int → Bytes → Bytes → Bytes
  | 0, _, _, buf => buf
  | fuel + 1, N, src, buf =>
    match limitedRead N src minRead with
    | (got, true, _, _) => buf ++ got
    | (got, false, N', src') => readFrom fuel N' src' (buf ++ got)

/-- The function `CopyLimit` on a source that holds the bytes `r`; `n` is an `int64`. -/
def CopyLimit (r : Bytes) (n : Int) : Except Err Bytes :=
  let buf := readFrom (r.length + 1) (wrapInt64 (n + 1)) r []
  if (buf.length : Int) > n then .error (.tooLarge n) else .ok buf

/-! ## Package `storage` -/

/-- The table `hextable` of `encoding/hex`. -/
def hextable : List Char := "0123456789abcdef".data

/-- Go `hex.EncodeToString`. -/
def hexEncode (b : Bytes) : String :=
  ⟨b.flatMap fun v => [hextable.getD (v.toNat / 16) '0', hextable.getD (v.toNat % 16) '0']⟩

/-- What `rand.Read(b[:])` left behind: the 16 bytes of the array and whether it
reported an error. -/
structure RandOutcome where
  buf : Bytes
  size : buf.length = 16
  failed : Bool

/-- The function `generateID`: both branches encode the array as it is. -/
def generateID (r : RandOutcome) : String :=
  if r.failed then hexEncode r.buf else hexEncode r.buf

/-- The rune test of `sanitizeExt`. -/
def isAlnum (r : Char) : Bool :=
  (decide (r ≥ 'a') && decide (r ≤ 'z')) || (decide (r ≥ 'A') && decide (r ≤ 'Z')) ||
  (decide (r ≥ '0') && decide (r ≤ '9'))

/-- The function `sanitizeExt`. -/
def sanitizeExt (ext : String) : String :=
  let out := ext.data.filter isAlnum
  if out.length = 0 then "bin" else ⟨out⟩

/-! ## Package `path/filepath` of the Go standard library: `Match` and `Glob`

`Match` is written out for a Unix path separator. Its loops run on a bound that the
pattern's length gives: every round takes at least one rune off the pattern. A loop that
ran out of rounds would answer `outOfRounds`, which is none of Go's errors. -/

/-- The answer of a loop of `Match` that ran out of rounds. -/
def outOfRounds : Err := .lib "out of rounds"

/-- The scan loop of `scanChunk`: the number of runes of the chunk, which ends before the
first `*` outside a bracket range. -/
def scanLen : List Char → Bool → Nat
  | [], _ => 0
  | c :: cs, inrange =>
    if c = '\\' then
      match cs with
      | [] => 1
      | _ :: cs' => 2 + scanLen cs' inrange
    else if c = '[' then 1 + scanLen cs true
    else if c = ']' then 1 + scanLen cs false
    else if c = '*' then (if inrange then 1 + scanLen cs inrange else 0)
    else 1 + scanLen cs inrange

/-- The rune is one of the pattern runes of `Match` (Go `hasMeta`). -/
def isMeta (c : Char) : Bool := c == '*' || c == '?' || c == '[' || c == '\\'

/-- Go `scanChunk`: whether stars precede the chunk, the chunk and the rest. -/
def scanChunk (pattern : List Char) : Bool × List Char × List Char :=
  let p := pattern.dropWhile (fun c => decide (c = '*'))
  let i := scanLen p false
  (decide (pattern.head? = some '*'), p.take i, p.drop i)

/-- Go `getEsc`: one rune of a character class, possibly escaped, and the rest. -/
def getEsc (chunk : List Char) : Except Err (Char × List Char) :=
  match chunk with
  | [] => .error .badPattern
  | c :: cs =>
    if c = '-' ∨ c = ']' then .error .badPattern
    else
      match (if c = '\\' then cs else c :: cs) with
      | [] => .error .badPattern
      | r :: nchunk => if nchunk = [] then .error .badPattern else .ok (r, nchunk)

/-- The range loop of a character class in `matchChunk`: whether `r` is in one of the
ranges, and the chunk after the closing bracket. -/
def classLoop : Nat → List Char → Char → Bool → Nat → Except Err (Bool × List Char)
  | 0, _, _, _, _ => .error outOfRounds
  | fuel + 1, chunk, r, matched, nrange =>
    if chunk.head? = some ']' ∧ nrange > 0 then .ok (matched, chunk.tail)
    else
      match getEsc chunk with
      | .error e => .error e
      | .ok (lo, chunk) =>
        if chunk.head? = some '-' then
          match getEsc chunk.tail with
          | .error e => .error e
          | .ok (hi, chunk) =>
            classLoop fuel chunk r (matched || (decide (lo ≤ r) && decide (r ≤ hi))) (nrange + 1)
        else
          classLoop fuel chunk r (matched || (decide (lo ≤ r) && decide (r ≤ lo))) (nrange + 1)

/-- The loop of Go `matchChunk` with its flag `failed`: `some rest` when the chunk matches
the beginning of `s`, `none` when it does not. -/
def matchChunkAux : Nat → List Char → List Char → Bool → Except Err (Option (List Char))
  | 0, _, _, _ => .error outOfRounds
  | fuel + 1, chunk, s, failed =>
    match chunk with
    | [] => .ok (if failed then none else some s)
    | c :: cs =>
      let failed := failed || s.isEmpty
      if c = '[' then
        let r := if failed then Char.ofNat 0 else s.headD (Char.ofNat 0)
        let s := if failed then s else s.tail
        let negated := decide (cs.head? = some '^')
        let cs := if negated then cs.tail else cs
        match classLoop (cs.length + 1) cs r false 0 with
        | .error e => .error e
        | .ok (matched, cs) => matchChunkAux fuel cs s (failed || (matched == negated))
      else if c = '?' then
        if failed then matchChunkAux fuel cs s true
        else matchChunkAux fuel cs s.tail (decide (s.head? = some '/'))
      else if c = '\\' then
        match cs with
        | [] => .error .badPattern
        | c' :: cs' =>
          if failed then matchChunkAux fuel cs' s true
          else matchChunkAux fuel cs' s.tail (decide (s.head? ≠ some c'))
      else
        if failed then matchChunkAux fuel cs s true
        else matchChunkAux fuel cs s.tail (decide (s.head? ≠ some c))

/-- Go `matchChunk`. -/
def matchChunk (chunk s : List Char) : Except Err (Option (List Char)) :=
  matchChunkAux (chunk.length + 1) chunk s false

/-- A chunk match leaving `t` is taken unless it is the last chunk and `t` is not empty. -/
def accepts (rest t : List Char) : Bool := t.isEmpty || !rest.isEmpty

/-- The loop of `Match` after a star: the first position of the name, not past a
separator, from which the chunk matches. -/
def starScan (chunk rest : List Char) : List Char → Except Err (Option (List Char))
  | [] => .ok none
  | c :: name =>
    if c = '/' then .ok none
    else
      match matchChunk chunk name with
      | .error e => .error e
      | .ok (some t) => if accepts rest t then .ok (some t) else starScan chunk rest name
      | .ok none => starScan chunk rest name

/-- The check of `Match` that the rest of the pattern is well formed. -/
def checkRest : Nat → List Char → Except Err Unit
  | 0, _ => .error outOfRounds
  | fuel + 1, pattern =>
    if pattern = [] then .ok ()
    else
      match matchChunk (scanChunk pattern).2.1 [] with
      | .error e => .error e
      | .ok _ => checkRest fuel (scanChunk pattern).2.2

/-- The chunk loop of Go `filepath.Match`. -/
def matchAux : Nat → List Char → List Char → Except Err Bool
  | 0, _, _ => .error outOfRounds
  | fuel + 1, pattern, name =>
    if pattern = [] then .ok name.isEmpty
    else
      let star := (scanChunk pattern).1
      let chunk := (scanChunk pattern).2.1
      let rest := (scanChunk pattern).2.2
      if star = true ∧ chunk = [] then .ok (!name.contains '/')
      else
        let found : Except Err (Option (List Char)) :=
          match matchChunk chunk name with
          | .error e => .error e
          | .ok (some t) =>
            if accepts rest t then .ok (some t)
            else if star then starScan chunk rest name else .ok none
          | .ok none => if star then starScan chunk rest name else .ok none
        match found with
        | .error e => .error e
        | .ok (some t) => matchAux fuel rest t
        | .ok none =>
          match checkRest (rest.length + 1) rest with
          | .error e => .error e
          | .ok _ => .ok false

/-- Go `filepath.Match`. -/
def Match (pattern name : String) : Except Err Bool :=
  matchAux (pattern.data.length + 1) pattern.data name.data

/-- The store directory: the files by name with their contents, no name twice. The
directory is flat; an identifier with a path separator addresses another directory and is
outside this model. -/
abbrev Dir := List (String × Bytes)

/-- The file names of the directory. -/
def names (d : Dir) : List String := d.map Prod.fst

/-- The content of a file, when the file exists. -/
def readFile (d : Dir) (name : String) : Option Bytes := d.lookup name

/-- A file created or truncated by `os.Create` and then written. -/
def writeFile (d : Dir) (name : String) (content : Bytes) : Dir :=
  (name, content) :: d.filter (fun e => decide (e.1 ≠ name))

/-- The order of Go strings, which `sort.Strings` uses: lexicographic, rune by rune (the
order of the UTF-8 bytes is the order of the runes). -/
def lexLe : List Char → List Char → Bool
  | [], _ => true
  | _ :: _, [] => false
  | a :: as, b :: bs => if a.toNat < b.toNat then true else if b.toNat < a.toNat then false
    else lexLe as bs

/-- The names of the directory as `Readdirnames` and `sort.Strings` deliver them. -/
def sortedNames (d : Dir) : List String :=
  (names d).insertionSort (fun a b => lexLe a.data b.data = true)

/-- The loop of Go `glob` over the sorted names of the directory. -/
def globNames (pattern : String) : List String → Except Err (List String)
  | [] => .ok []
  | n :: ns =>
    match Match pattern n with
    | .error e => .error e
    | .ok matched =>
      match globNames pattern ns with
      | .error e => .error e
      | .ok m => .ok (if matched then n :: m else m)

/-- Go `filepath.Glob` for a pattern in the store directory: the pattern is checked, the
names of the directory are sorted and those that match are returned in that order. The
path of the store directory itself is taken to have no pattern rune. -/
def Glob (d : Dir) (pattern : String) : Except Err (List String) :=
  match Match pattern "" with
  | .error e => .error e
  | .ok _ => globNames pattern (sortedNames d)

/-! ## Package `storage`: the file store -/

/-- What the file system does to one `Save`: nothing wrong, `os.Create` fails, or the copy
fails after `written` bytes. -/
inductive Fault where
  | none
  | create
  | write (written : Nat)
  deriving DecidableEq, Repr

/-- The file name `Save` builds from the identifier and the hint. -/
def saveName (id hintedExt : String) : String :=
  if hintedExt ≠ "" then id ++ "." ++ sanitizeExt hintedExt else id ++ ".bin"

/-- The method `FileStore.Save` on the bytes the reader holds: the result and the
directory afterwards. -/
def Save (d : Dir) (rnd : RandOutcome) (fault : Fault) (data : Bytes) (hintedExt : String) :
    Except Err String × Dir :=
  let id := generateID rnd
  let filename := saveName id hintedExt
  match fault with
  | .create => (.error .io, d)
  | .write k => (.error .io, writeFile d filename (data.take k))
  | .none => (.ok id, writeFile d filename data)

/-- The file name starts with the identifier and a dot. -/
def namedUnder (id name : String) : Bool := (id.data ++ ['.']).isPrefixOf name.data

/-- The identifier has no pattern rune of `Match`. -/
def isLiteral (id : String) : Bool := id.data.all (fun c => !isMeta c)

/-- The method `FileStore.Load`. -/
def Load (d : Dir) (id : String) : Except Err Bytes :=
  match Glob d (id ++ ".*") with
  | .error e => .error e
  | .ok [] => .error .notExist
  | .ok (c :: _) =>
    match readFile d c with
    | some b => .ok b
    | none => .error .io

/-- The method `FileStore.PathFor`: the name of the file inside the store directory. -/
def PathFor (d : Dir) (id : String) : Except Err String :=
  match Glob d (id ++ ".*") with
  | .error e => .error e
  | .ok [] => .error .notExist
  | .ok (c :: _) => .ok c

/-! ## Package `service` -/

/-- Go `filepath.Ext`: the suffix from the last dot of the last path element, or empty. -/
def Ext (path : String) : String :=
  let r := path.data.reverse
  let tail := r.takeWhile (fun c => decide (c ≠ '.') && decide (c ≠ '/'))
  if (r.drop tail.length).head? = some '.' then ⟨'.' :: tail.reverse⟩ else ""

/-- The method `Service.SaveImage`. -/
def SaveImage (d : Dir) (rnd : RandOutcome) (fault : Fault) (data : Bytes)
    (originalName : String) : Except Err String × Dir :=
  let ext := Ext originalName
  let ext : String := if ext.data.head? = some '.' then ⟨ext.data.drop 1⟩ else ext
  Save d rnd fault data ext

/-- The method `Service.GetImageWithOptions`. -/
def GetImageWithOptions {Img : Type} (L : Lib Img) (tl : Char → Char) (d : Dir) (id : String)
    (opts : Options) : Except Err (Bytes × String) :=
  match Load d id with
  | .error e => .error e
  | .ok b =>
    if opts.IsNoop then .ok (b, noopContentType (DetectFormat L tl b))
    else Process L tl b opts

/-! ## Package `httpapi` -/

/-- The text of an error (`err.Error()`). -/
def Err.Error : Err → String
  | .lib msg => msg
  | .unsupported none => "unsupported format"
  | .unsupported (some f) => "unsupported format: " ++ f
  | .notExist => "file does not exist"
  | .badPattern => "syntax error in pattern"
  | .tooLarge n => "payload too large: limit " ++ toString n ++ " bytes"
  | .syntaxErr => "invalid syntax"
  | .rangeErr => "value out of range"
  | .io => "input/output error"

/-- The body of a response. -/
inductive Body where
  /-- A plain text message (`http.Error`, `http.NotFound`, the health check). -/
  | text (msg : String)
  /-- The bytes of an image. -/
  | image (b : Bytes)
  /-- The JSON of `api.UploadResponse`. -/
  | uploadResponse (id : String)
  /-- The JSON of `api.ErrorResponse`. -/
  | errorResponse (error : String)
  deriving DecidableEq, Repr

/-- What a handler answers: status code, `Content-Type` header and body. -/
structure Response where
  status : Nat
  contentType : String
  body : Body
  deriving DecidableEq, Repr

/-- The function `writeError`. -/
def writeError (status : Nat) (err : Err) : Response :=
  ⟨status, "application/json", .errorResponse err.Error⟩

/-- Go `http.Error`. -/
def httpError (msg : String) (status : Nat) : Response :=
  ⟨status, "text/plain; charset=utf-8", .text msg⟩

/-- The index of the last occurrence of `c`, or -1 (`strings.LastIndexByte`). -/
def lastIndexByte (s : List Char) (c : Char) : Int :=
  let k := (s.reverse.takeWhile (fun x => decide (x ≠ c))).length
  if k = s.length then -1 else ((s.length - 1 - k : Nat) : Int)

/-- Go `path.Base`. -/
def Base (path : String) : String :=
  if path = "" then "."
  else
    let p := (path.data.reverse.dropWhile (fun c => decide (c = '/'))).reverse
    let i := lastIndexByte p '/'
    let p := if i ≥ 0 then p.drop (i.toNat + 1) else p
    if p = [] then "/" else ⟨p⟩

/-- The function `splitIDExt`. -/
def splitIDExt (p : String) : String × String :=
  let base := Base p
  let dot := lastIndexByte base.data '.'
  if dot ≤ 0 then (base, "")
  else (⟨base.data.take dot.toNat⟩, ⟨base.data.drop (dot.toNat + 1)⟩)

/-- The parts of a GET request the handler reads: method, `URL.Path`, the `Accept`
header and the query (`q.Get`, empty for an absent key). -/
structure GetRequest where
  method : String
  path : String
  accept : String
  query : String → String

/-- The target negotiation of `handleGetImage`: the target format, empty when unset, or
`none` when the extension is rejected. -/
def negotiate (tl : Char → Char) (ext accept : String) : Option String :=
  if ext ≠ "" then
    let e := ToLower tl ext
    if e = "jpg" ∨ e = "jpeg" then some FormatJPEG
    else if e = "png" then some FormatPNG
    else none
  else
    if Contains accept "image/jpeg" ∨ Contains accept "image/jpg" then some FormatJPEG
    else if Contains accept "image/png" then some FormatPNG
    else some ""

/-- The options `handleGetImage` parses from the query, with the negotiated target. -/
def parseOptions (tl : Char → Char) (q : String → String) (target : String) : Options :=
  { Target := if target ≠ "" then target else ""
    Quality := if q "quality" ≠ "" then ParseInt (q "quality") else 0
    Grayscale := ParseBool tl (q "gray") || ParseBool tl (q "grayscale")
    Width := if q "w" ≠ "" then ParseInt (q "w") else 0
    Height := if q "h" ≠ "" then ParseInt (q "h") else 0
    Thumbnail := ParseBool tl (q "thumb") || ParseBool tl (q "thumbnail") }

/-- The end of `handleGetImage`: the service call and the response. -/
def respond {Img : Type} (L : Lib Img) (tl : Char → Char) (d : Dir) (id : String)
    (opts : Options) : Response :=
  match GetImageWithOptions L tl d id opts with
  | .error err =>
    if Contains err.Error "no such file" ∨ Contains err.Error "not exist" then
      writeError 404 err
    else writeError 500 err
  | .ok (b, ct) => ⟨200, ct, .image b⟩

/-- The method `Server.handleGetImage`. -/
def handleGetImage {Img : Type} (L : Lib Img) (tl : Char → Char) (d : Dir)
    (r : GetRequest) : Response :=
  if r.method ≠ "GET" then httpError "method not allowed" 405
  else
    let tail := TrimPrefix r.path "/images/"
    if tail = "" ∨ tail = "/" then httpError "404 page not found\n" 404
    else
      match negotiate tl (splitIDExt tail).2 r.accept with
      | none => httpError "unsupported format" 400
      | some target => respond L tl d (splitIDExt tail).1 (parseOptions tl r.query target)

/-- What `ParseMultipartForm` and `FormFile` make of a multipart body. -/
inductive Multipart where
  /-- The call `ParseMultipartForm` fails. -/
  | parseError (e : Err)
  /-- There is no field `file`. -/
  | missingFile
  /-- The field `file`: its content and the file name of its header. -/
  | file (data : Bytes) (filename : String)

/-- The parts of an upload request the handler reads. -/
structure UploadRequest where
  contentType : String
  body : Bytes
  xFilename : String
  form : Multipart

/-- The end of `handleUpload`: the service call and the response. -/
def storeUpload (d : Dir) (rnd : RandOutcome) (fault : Fault) (data : Bytes) (filename : String) :
    Response × Dir :=
  match SaveImage d rnd fault data filename with
  | (.error err, d') => (writeError 500 err, d')
  | (.ok id, d') => (⟨200, "application/json", .uploadResponse id⟩, d')

/-- The method `Server.handleUpload` with the limit `cfg.MaxUploadBytes`: the response and
the store directory afterwards. -/
def handleUpload (maxUploadBytes : Int) (d : Dir) (rnd : RandOutcome) (fault : Fault)
    (r : UploadRequest) : Response × Dir :=
  if HasPrefix r.contentType "multipart/form-data" then
    match r.form with
    | .parseError e => (writeError 400 e, d)
    | .missingFile => (writeError 400 (.lib "missing file field"), d)
    | .file file filename =>
      match CopyLimit file maxUploadBytes with
      | .error err => (writeError 413 err, d)
      | .ok data => storeUpload d rnd fault data filename
  else
    match CopyLimit r.body maxUploadBytes with
    | .error err => (writeError 413 err, d)
    | .ok data => storeUpload d rnd fault data r.xFilename

/-! ## A small codec for examples

The theorems below hold for every codec. Where an example needs one, this one stands in:
an image is its bytes, a PNG starts with the bytes 137 80, a JPEG with 255 216. -/

/-- The format the example codec reads off the first two bytes. -/
def demoFormat (b : Bytes) : Except Err String :=
  match b with
  | 137 :: 80 :: _ => .ok "png"
  | 255 :: 216 :: _ => .ok "jpeg"
  | _ => .error (.lib "image: unknown format")

/-- The example codec. -/
def demoLib : Lib Bytes where
  decodeConfig := demoFormat
  decode := fun b => match demoFormat b with
    | .ok _ => .ok (b.drop 2)
    | .error e => .error e
  grayscale := fun img => img.map (fun _ => 128)
  thumbnail := fun img w h => img.take (w.toNat * h.toNat)
  resize := fun img w h => img.take (max w.toNat h.toNat)
  jpegEncode := fun img q => .ok (255 :: 216 :: UInt8.ofNat q.toNat :: img)
  pngEncode := fun img => .ok (137 :: 80 :: img)

/-- The identifier of 32 zeros, which `generateID` returns when the array stays zero. -/
def zeroID : String := "00000000000000000000000000000000"

/-- An identifier of the examples. -/
def abID : String := "abababababababababababababababab"

/-- The identifier bytes of the examples. -/
def demoRand (b : UInt8) (failed : Bool) : RandOutcome :=
  ⟨List.replicate 16 b, by simp, failed⟩

/-- A codec that records the calls made on the raster: decoding gives the empty record,
`grayscale` appends 1, `thumbnail` appends 2 and its two sizes, `resize` appends 3 and its
two sizes; the PNG encoder returns the record and the JPEG encoder the record followed by
the quality. -/
def recLib : Lib Bytes where
  decodeConfig := demoFormat
  decode := fun b => match demoFormat b with
    | .ok _ => .ok []
    | .error e => .error e
  grayscale := fun img => img ++ [1]
  thumbnail := fun img w h => img ++ [2, UInt8.ofNat w.toNat, UInt8.ofNat h.toNat]
  resize := fun img w h => img ++ [3, UInt8.ofNat w.toNat, UInt8.ofNat h.toNat]
  jpegEncode := fun img q => .ok (img ++ [UInt8.ofNat q.toNat])
  pngEncode := fun img => .ok img

/-- A codec for an image in a third format: `image.DecodeConfig` names it `gif`, which the
service does not support, and `image.Decode` decodes it. -/
def gifLib : Lib Bytes :=
  { demoLib with decodeConfig := fun _ => .ok "gif", decode := fun b => .ok b }

/-! # Theorems -/

/-! ## White space and `TrimSpace` -/

/-- Leading white space does not change what `dropWhile isSpace` leaves. -/
theorem dropWhile_isSpace_append (l t : List Char) (hl : ∀ c ∈ l, isSpace c = true) :
    (l ++ t).dropWhile isSpace = t.dropWhile isSpace := by
  induction l with
  | nil => rfl
  | cons a l ih =>
    have ha : isSpace a = true := hl a (List.mem_cons_self _ _)
    simp only [List.cons_append, List.dropWhile_cons, ha, if_true]
    exact ih (fun c hc => hl c (List.mem_cons_of_mem _ hc))

/-- The runes that `TrimSpace` keeps. -/
theorem trimSpace_data (s : String) :
    (TrimSpace s).data = ((s.data.dropWhile isSpace).reverse.dropWhile isSpace).reverse := rfl

/-- A word that neither starts nor ends in white space is what trimming leaves of it
with white space around. -/
theorem trim_of_decomp (l t r : List Char) (a z : Char) (m m' : List Char)
    (hl : ∀ c ∈ l, isSpace c = true) (hr : ∀ c ∈ r, isSpace c = true)
    (hta : t = a :: m) (ha : isSpace a = false) (htz : t = m' ++ [z]) (hz : isSpace z = false) :
    (((l ++ t ++ r).dropWhile isSpace).reverse.dropWhile isSpace).reverse = t := by
  have h1 : (l ++ t ++ r).dropWhile isSpace = t ++ r := by
    rw [List.append_assoc, dropWhile_isSpace_append l _ hl, hta]
    simp [List.dropWhile_cons, ha]
  rw [h1, List.reverse_append,
    dropWhile_isSpace_append r.reverse _ (fun c hc => hr c (List.mem_reverse.mp hc)), htz]
  simp [List.dropWhile_cons, hz]

/-- Every string is white space, what trimming leaves, and white space. -/
theorem decomp_of_trim (x : List Char) :
    ∃ l r, x = l ++ ((x.dropWhile isSpace).reverse.dropWhile isSpace).reverse ++ r ∧
      (∀ c ∈ l, isSpace c = true) ∧ (∀ c ∈ r, isSpace c = true) := by
  refine ⟨x.takeWhile isSpace, ((x.dropWhile isSpace).reverse.takeWhile isSpace).reverse,
    ?_, ?_, ?_⟩
  · rw [List.append_assoc, ← List.reverse_append, List.takeWhile_append_dropWhile,
      List.reverse_reverse, List.takeWhile_append_dropWhile]
  · intro c hc
    exact List.mem_takeWhile_imp hc
  · intro c hc
    exact List.mem_takeWhile_imp (List.mem_reverse.mp hc)

/-- The result of `TrimSpace x` is the word `t` exactly when `x` is `t` with white space
around. -/
theorem trimSpace_eq_iff (x t : String) (ht : ∃ a m, t.data = a :: m ∧ isSpace a = false)
    (ht' : ∃ m' z, t.data = m' ++ [z] ∧ isSpace z = false) :
    TrimSpace x = t ↔ ∃ l r : List Char, x.data = l ++ t.data ++ r ∧
      (∀ c ∈ l, isSpace c = true) ∧ (∀ c ∈ r, isSpace c = true) := by
  constructor
  · intro h
    obtain ⟨l, r, hx, hl, hr⟩ := decomp_of_trim x.data
    refine ⟨l, r, ?_, hl, hr⟩
    rw [← h, trimSpace_data]
    exact hx
  · rintro ⟨l, r, hx, hl, hr⟩
    obtain ⟨a, m, hta, ha⟩ := ht
    obtain ⟨m', z, htz, hz⟩ := ht'
    apply String.ext
    rw [trimSpace_data, hx]
    exact trim_of_decomp l t.data r a z m m' hl hr hta ha htz hz

/-! ## `Match` on a literal followed by a star -/

/-- The scan loop of `scanChunk` on a pattern that is not empty. -/
theorem scanLen_cons (c : Char) (cs : List Char) (inrange : Bool) :
    scanLen (c :: cs) inrange =
      if c = '\\' then
        match cs with
        | [] => 1
        | _ :: cs' => 2 + scanLen cs' inrange
      else if c = '[' then 1 + scanLen cs true
      else if c = ']' then 1 + scanLen cs false
      else if c = '*' then (if inrange then 1 + scanLen cs inrange else 0)
      else 1 + scanLen cs inrange := by
  cases cs <;> rfl

theorem scanLen_star (rest : List Char) : scanLen ('*' :: rest) false = 0 := by
  rw [scanLen_cons]
  rw [if_neg (by decide), if_neg (by decide), if_neg (by decide), if_pos rfl]
  rfl

theorem scanLen_plain (c : Char) (cs : List Char) (hc : isMeta c = false) :
    scanLen (c :: cs) false = 1 + scanLen cs false := by
  simp only [isMeta, Bool.or_eq_false_iff, beq_eq_false_iff_ne, ne_eq] at hc
  obtain ⟨⟨⟨h1, h2⟩, h3⟩, h4⟩ := hc
  rw [scanLen_cons, if_neg h4, if_neg h3]
  by_cases h5 : c = ']'
  · rw [if_pos h5]
  · rw [if_neg h5, if_neg h1]

/-- The chunk of a literal followed by a star is the literal. -/
theorem scanLen_literal (lit rest : List Char) (h : ∀ c ∈ lit, isMeta c = false) :
    scanLen (lit ++ '*' :: rest) false = lit.length := by
  induction lit with
  | nil => exact scanLen_star rest
  | cons c cs ih =>
    have hc : isMeta c = false := h c (List.mem_cons_self _ _)
    have ih' := ih (fun x hx => h x (List.mem_cons_of_mem _ hx))
    rw [List.cons_append, scanLen_plain c _ hc, ih', List.length_cons]
    omega

theorem scanChunk_literal (a : Char) (lit : List Char) (h : ∀ c ∈ a :: lit, isMeta c = false) :
    scanChunk ((a :: lit) ++ ['*']) = (false, a :: lit, ['*']) := by
  have ha : isMeta a = false := h a (List.mem_cons_self _ _)
  have ha' : a ≠ '*' := by
    intro he
    rw [he] at ha
    exact absurd ha (by decide)
  have hd : ((a :: lit) ++ ['*']).dropWhile (fun c => decide (c = '*')) = (a :: lit) ++ ['*'] := by
    simp [List.dropWhile_cons, ha']
  have hs := scanLen_literal (a :: lit) [] h
  unfold scanChunk
  simp only [hd, hs]
  simp [ha']

theorem scanChunk_star : scanChunk ['*'] = (true, [], []) := by decide

theorem matchChunkAux_nil (f : Nat) (s : List Char) (failed : Bool) :
    matchChunkAux (f + 1) [] s failed = .ok (if failed then none else some s) := rfl

/-- One round of `matchChunk` on a rune that is no pattern rune. -/
theorem matchChunkAux_plain (f : Nat) (c : Char) (cs s : List Char) (failed : Bool)
    (hc : isMeta c = false) :
    matchChunkAux (f + 1) (c :: cs) s failed =
      if (failed || s.isEmpty) = true then matchChunkAux f cs s true
      else matchChunkAux f cs s.tail (decide (s.head? ≠ some c)) := by
  simp only [isMeta, Bool.or_eq_false_iff, beq_eq_false_iff_ne, ne_eq] at hc
  obtain ⟨⟨⟨h1, h2⟩, h3⟩, h4⟩ := hc
  cases cs <;> simp only [matchChunkAux, h2, h3, h4, if_false]

/-- A literal chunk matches exactly the strings it is a prefix of, and leaves the rest. -/
theorem matchChunkAux_literal (chunk : List Char) (h : ∀ c ∈ chunk, isMeta c = false) :
    ∀ (fuel : Nat) (s : List Char), chunk.length < fuel →
      matchChunkAux fuel chunk s true = .ok none ∧
      matchChunkAux fuel chunk s false =
        .ok (if chunk.isPrefixOf s then some (s.drop chunk.length) else none) := by
  induction chunk with
  | nil =>
    intro fuel s hf
    cases fuel with
    | zero => omega
    | succ f => simp [matchChunkAux_nil]
  | cons c cs ih =>
    intro fuel s hf
    have hc : isMeta c = false := h c (List.mem_cons_self _ _)
    have ih' := ih (fun x hx => h x (List.mem_cons_of_mem _ hx))
    cases fuel with
    | zero => omega
    | succ f =>
      have hf' : cs.length < f := by simpa using hf
      constructor
      · rw [matchChunkAux_plain f c cs s true hc]
        simp only [Bool.true_or, if_true]
        exact (ih' f s hf').1
      · rw [matchChunkAux_plain f c cs s false hc]
        cases s with
        | nil =>
          simp only [Bool.false_or, List.isEmpty_nil, if_true]
          rw [(ih' f [] hf').1]
          simp [List.isPrefixOf]
        | cons x xs =>
          simp only [Bool.false_or, List.isEmpty_cons, List.tail_cons, List.head?_cons,
            Bool.false_eq_true, if_false]
          by_cases hx : x = c
          · subst hx
            simp only [ne_eq, not_true_eq_false, decide_False]
            rw [(ih' f xs hf').2]
            simp [List.isPrefixOf]
          · have hx' : c ≠ x := fun e => hx e.symm
            simp only [ne_eq, Option.some.injEq, hx, not_false_eq_true, decide_True]
            rw [(ih' f xs hf').1]
            simp [List.isPrefixOf, hx']

/-- The result of `Match` for a pattern that is a literal followed by a star: the name
starts with the literal and has no separator after it. -/
theorem matchAux_literal_star (a : Char) (lit name : List Char)
    (h : ∀ c ∈ a :: lit, isMeta c = false) :
    matchAux (((a :: lit) ++ ['*']).length + 1) ((a :: lit) ++ ['*']) name =
      .ok ((a :: lit).isPrefixOf name && !(name.drop (a :: lit).length).contains '/') := by
  have hlen : ((a :: lit) ++ ['*']).length + 1 = (lit.length + 2) + 1 := by simp
  have hsc := scanChunk_literal a lit h
  have hmc := (matchChunkAux_literal (a :: lit) h ((a :: lit).length + 1) name (by omega)).2
  rw [hlen]
  simp only [matchAux, hsc, matchChunk, hmc]
  by_cases hp : (a :: lit).isPrefixOf name = true
  · simp [hp, accepts, scanChunk_star]
  · simp [hp, checkRest, scanChunk_star, matchChunk, matchChunkAux_nil]

/-- The pattern of `Load` for an identifier without pattern runes. -/
theorem match_id_star (id n : String) (h : isLiteral id = true) :
    Match (id ++ ".*") n =
      .ok (namedUnder id n && !(n.data.drop (id.data.length + 1)).contains '/') := by
  have hlit : ∀ c ∈ id.data ++ ['.'], isMeta c = false := by
    intro c hc
    rcases List.mem_append.mp hc with hc | hc
    · have := List.all_eq_true.mp h c hc
      simpa using this
    · rw [List.mem_singleton.mp hc]
      decide
  have hd : (id ++ ".*").data = (id.data ++ ['.']) ++ ['*'] := by
    rw [String.data_append]
    simp
  unfold Match namedUnder
  rw [hd]
  cases hid : id.data ++ ['.'] with
  | nil => simp at hid
  | cons a lit =>
    rw [hid] at hlit
    have hl : (a :: lit).length = id.data.length + 1 := by
      rw [← hid]
      simp
    rw [matchAux_literal_star a lit n.data hlit, hl]

theorem globNames_eq_filter (p : String) (f : String → Bool) (l : List String)
    (h : ∀ n ∈ l, Match p n = .ok (f n)) : globNames p l = .ok (l.filter f) := by
  induction l with
  | nil => rfl
  | cons n ns ih =>
    have hn := h n (List.mem_cons_self _ _)
    have ih' := ih (fun x hx => h x (List.mem_cons_of_mem _ hx))
    simp only [globNames, hn, ih', List.filter_cons]

/-- For an identifier without pattern runes, `Glob` returns the sorted names that start
with the identifier and a dot. -/
theorem glob_id_star (d : Dir) (id : String) (h : isLiteral id = true) :
    Glob d (id ++ ".*") = .ok ((sortedNames d).filter (fun n =>
      namedUnder id n && !(n.data.drop (id.data.length + 1)).contains '/')) := by
  unfold Glob
  rw [match_id_star id "" h]
  exact globNames_eq_filter _ _ _ (fun n _ => match_id_star id n h)

/-! ## The loops of `Match` end -/

/-- A rune read by `getEsc` shortens the chunk and leaves it not empty. -/
theorem getEsc_ok (chunk : List Char) (r : Char) (n : List Char)
    (h : getEsc chunk = .ok (r, n)) : n.length < chunk.length ∧ n ≠ [] := by
  unfold getEsc at h
  cases chunk with
  | nil => simp at h
  | cons c cs =>
    simp only [] at h
    split at h
    · simp at h
    · by_cases hc : c = '\\'
      · simp only [hc, if_true] at h
        cases cs with
        | nil => simp at h
        | cons r' n' =>
          simp only [] at h
          split at h
          · simp at h
          · simp only [Except.ok.injEq, Prod.mk.injEq] at h
            obtain ⟨-, rfl⟩ := h
            rename_i hn
            exact ⟨by simp; omega, hn⟩
      · simp only [hc, if_false] at h
        split at h
        · simp at h
        · simp only [Except.ok.injEq, Prod.mk.injEq] at h
          obtain ⟨-, rfl⟩ := h
          rename_i hn
          exact ⟨by simp, hn⟩

/-- The only error of `getEsc` is a bad pattern. -/
theorem getEsc_error (chunk : List Char) (e : Err) (h : getEsc chunk = .error e) :
    e = .badPattern := by
  unfold getEsc at h
  cases chunk with
  | nil => simpa using h.symm
  | cons c cs =>
    simp only [] at h
    split at h
    · simpa using h.symm
    · split at h
      · simpa using h.symm
      · split at h
        · simpa using h.symm
        · simp at h

theorem outOfRounds_ne : outOfRounds ≠ Err.badPattern := by decide

/-- With more rounds than the chunk has runes, the range loop ends and shortens the
chunk. -/
theorem classLoop_total (fuel : Nat) : ∀ (chunk : List Char) (r : Char) (m : Bool) (k : Nat),
    chunk.length < fuel →
    classLoop fuel chunk r m k ≠ .error outOfRounds ∧
    ∀ m' c', classLoop fuel chunk r m k = .ok (m', c') → c'.length < chunk.length := by
  induction fuel with
  | zero => intro chunk r m k h; omega
  | succ f ih =>
    intro chunk r m k h
    unfold classLoop
    split
    · rename_i hc
      refine ⟨by simp, ?_⟩
      intro m' c' he
      simp only [Except.ok.injEq, Prod.mk.injEq] at he
      obtain ⟨-, rfl⟩ := he
      cases chunk with
      | nil => simp at hc
      | cons a as => simp
    · cases h1 : getEsc chunk with
      | error e =>
        simp only []
        rw [getEsc_error chunk e h1]
        exact ⟨fun hh => outOfRounds_ne (by injection hh with hh; exact hh.symm), by simp⟩
      | ok p =>
        obtain ⟨lo, chunk1⟩ := p
        obtain ⟨hl1, hn1⟩ := getEsc_ok chunk lo chunk1 h1
        simp only []
        split
        · cases h2 : getEsc chunk1.tail with
          | error e =>
            simp only []
            rw [getEsc_error _ e h2]
            exact ⟨fun hh => outOfRounds_ne (by injection hh with hh; exact hh.symm), by simp⟩
          | ok q =>
            obtain ⟨hi, chunk2⟩ := q
            obtain ⟨hl2, -⟩ := getEsc_ok _ hi chunk2 h2
            have ht : chunk1.tail.length ≤ chunk1.length := by simp
            simp only []
            obtain ⟨i1, i2⟩ := ih chunk2 r
              (m || (decide (lo ≤ r) && decide (r ≤ hi))) (k + 1) (by omega)
            exact ⟨i1, fun m' c' he => by have := i2 m' c' he; omega⟩
        · obtain ⟨i1, i2⟩ := ih chunk1 r
            (m || (decide (lo ≤ r) && decide (r ≤ lo))) (k + 1) (by omega)
          exact ⟨i1, fun m' c' he => by have := i2 m' c' he; omega⟩

/-- One round of `matchChunk` on a chunk that is not empty. -/
theorem matchChunkAux_cons (f : Nat) (c : Char) (cs s : List Char) (failed : Bool) :
    matchChunkAux (f + 1) (c :: cs) s failed =
      if c = '[' then
        match classLoop ((if decide (cs.head? = some '^') then cs.tail else cs).length + 1)
            (if decide (cs.head? = some '^') then cs.tail else cs)
            (if (failed || s.isEmpty) then Char.ofNat 0 else s.headD (Char.ofNat 0)) false 0 with
        | .error e => .error e
        | .ok (matched, cs') =>
          matchChunkAux f cs' (if (failed || s.isEmpty) then s else s.tail)
            ((failed || s.isEmpty) || (matched == decide (cs.head? = some '^')))
      else if c = '?' then
        if (failed || s.isEmpty) then matchChunkAux f cs s true
        else matchChunkAux f cs s.tail (decide (s.head? = some '/'))
      else if c = '\\' then
        match cs with
        | [] => .error .badPattern
        | c' :: cs' =>
          if (failed || s.isEmpty) then matchChunkAux f cs' s true
          else matchChunkAux f cs' s.tail (decide (s.head? ≠ some c'))
      else
        if (failed || s.isEmpty) then matchChunkAux f cs s true
        else matchChunkAux f cs s.tail (decide (s.head? ≠ some c)) := by
  cases cs <;> rfl

/-- With more rounds than the chunk has runes, `matchChunk` ends. -/
theorem matchChunkAux_total (fuel : Nat) : ∀ (chunk s : List Char) (failed : Bool),
    chunk.length < fuel → matchChunkAux fuel chunk s failed ≠ .error outOfRounds := by
  induction fuel with
  | zero => intro chunk s failed h; omega
  | succ f ih =>
    intro chunk s failed h
    cases chunk with
    | nil => simp [matchChunkAux_nil]
    | cons c cs =>
      have hcs : cs.length < f := by simpa using h
      rw [matchChunkAux_cons]
      split
      · have htl : (if decide (cs.head? = some '^') then cs.tail else cs).length ≤ cs.length := by
          split <;> simp
        have hcl := classLoop_total
          ((if decide (cs.head? = some '^') then cs.tail else cs).length + 1)
          (if decide (cs.head? = some '^') then cs.tail else cs)
          (if (failed || s.isEmpty) then Char.ofNat 0 else s.headD (Char.ofNat 0)) false 0
          (by omega)
        split
        · rename_i e he
          intro hh
          injection hh with hh
          exact hcl.1 (hh ▸ he)
        · rename_i matched cs' he
          have := hcl.2 matched cs' he
          exact ih _ _ _ (by omega)
      · split
        · split
          · exact ih _ _ _ hcs
          · exact ih _ _ _ hcs
        · split
          · split
            · intro hh
              injection hh with hh
              exact outOfRounds_ne hh.symm
            · rename_i c' cs'
              have : cs'.length < f := by
                simp only [List.length_cons] at hcs
                omega
              split
              · exact ih _ _ _ this
              · exact ih _ _ _ this
          · split
            · exact ih _ _ _ hcs
            · exact ih _ _ _ hcs

theorem matchChunk_total (chunk s : List Char) : matchChunk chunk s ≠ .error outOfRounds :=
  matchChunkAux_total _ chunk s false (by omega)

theorem scanLen_pos (c : Char) (cs : List Char) (hc : c ≠ '*') :
    0 < scanLen (c :: cs) false := by
  rw [scanLen_cons]
  split
  · cases cs <;> simp
  · split
    · omega
    · split
      · omega
      · omega

/-- What `scanChunk` leaves of a pattern is shorter than the pattern. -/
theorem scanChunk_rest_lt (pattern : List Char) (h : pattern ≠ []) :
    (scanChunk pattern).2.2.length < pattern.length := by
  unfold scanChunk
  simp only [List.length_drop]
  cases pattern with
  | nil => exact absurd rfl h
  | cons c cs =>
    by_cases hc : c = '*'
    · have hle : ((c :: cs).dropWhile (fun c => decide (c = '*'))).length ≤ cs.length := by
        rw [List.dropWhile_cons, if_pos (by simpa using hc)]
        exact (List.dropWhile_sublist _).length_le
      simp only [List.length_cons]
      omega
    · have hd : (c :: cs).dropWhile (fun c => decide (c = '*')) = c :: cs := by
        rw [List.dropWhile_cons, if_neg (by simpa using hc)]
      rw [hd]
      have := scanLen_pos c cs hc
      simp only [List.length_cons]
      omega

theorem checkRest_total (fuel : Nat) : ∀ pattern : List Char, pattern.length < fuel →
    checkRest fuel pattern ≠ .error outOfRounds := by
  induction fuel with
  | zero => intro pattern h; omega
  | succ f ih =>
    intro pattern h
    unfold checkRest
    split
    · simp
    · rename_i hp
      split
      · rename_i e he
        intro hh
        injection hh with hh
        exact matchChunk_total _ _ (hh ▸ he)
      · have := scanChunk_rest_lt pattern hp
        exact ih _ (by omega)

theorem starScan_total (chunk rest : List Char) : ∀ name : List Char,
    starScan chunk rest name ≠ .error outOfRounds := by
  intro name
  induction name with
  | nil => simp [starScan]
  | cons c name ih =>
    unfold starScan
    split
    · simp
    · split
      · rename_i e he
        intro hh
        injection hh with hh
        exact matchChunk_total _ _ (hh ▸ he)
      · split
        · simp
        · exact ih
      · exact ih

theorem matchAux_total (fuel : Nat) : ∀ pattern name : List Char, pattern.length < fuel →
    matchAux fuel pattern name ≠ .error outOfRounds := by
  induction fuel with
  | zero => intro pattern name h; omega
  | succ f ih =>
    intro pattern name h
    unfold matchAux
    split
    · simp
    · rename_i hp
      have hlt := scanChunk_rest_lt pattern hp
      simp only []
      split
      · simp
      · split
        · rename_i e he
          intro hh
          injection hh with hh
          subst hh
          revert he
          split
          · rename_i e' he'
            intro hh
            injection hh with hh
            exact matchChunk_total _ _ (hh ▸ he')
          · split
            · simp
            · split
              · exact starScan_total _ _ _
              · simp
          · split
            · exact starScan_total _ _ _
            · simp
        · exact ih _ _ (by omega)
        · split
          · rename_i e he
            intro hh
            injection hh with hh
            exact checkRest_total _ _ (by omega) (hh ▸ he)
          · simp

/-- The loops of `Match` never run out of rounds: `Match` answers as Go's does, with a
result or with a bad-pattern error. -/
theorem match_total (pattern name : String) : Match pattern name ≠ .error outOfRounds :=
  matchAux_total _ _ _ (by omega)

/-! ## The store directory -/

theorem sortedNames_perm (d : Dir) : (sortedNames d).Perm (names d) :=
  List.perm_insertionSort _ _

theorem readFile_writeFile_same (d : Dir) (n : String) (c : Bytes) :
    readFile (writeFile d n c) n = some c := by
  simp [readFile, writeFile, List.lookup]

theorem readFile_writeFile_other (d : Dir) (n m : String) (c : Bytes) (h : m ≠ n) :
    readFile (writeFile d n c) m = readFile d m := by
  have hb : (m == n) = false := by simpa using h
  simp only [readFile, writeFile, List.lookup, hb]
  induction d with
  | nil => rfl
  | cons e es ih =>
    obtain ⟨k, v⟩ := e
    by_cases hk : k = n
    · subst hk
      have hmk : (m == k) = false := hb
      simp only [ne_eq, decide_not] at ih
      simp [List.filter_cons, List.lookup, hmk, ih]
    · by_cases hmk : m = k
      · subst hmk
        simp [List.filter_cons, List.lookup, hk]
      · have hmk' : (m == k) = false := by simpa using hmk
        simp only [ne_eq, decide_not] at ih
        simp [List.filter_cons, List.lookup, hk, hmk', ih]

theorem names_writeFile (d : Dir) (n : String) (c : Bytes) :
    names (writeFile d n c) = n :: (names d).filter (fun m => decide (m ≠ n)) := by
  simp [names, writeFile, List.filter_map, Function.comp_def]

/-! ## Identifiers and extensions -/

theorem hextable_getD_mem (k : Nat) : hextable.getD k '0' ∈ hextable := by
  by_cases hk : k < 16
  · interval_cases k <;> decide
  · rw [List.getD_eq_default _ _ (by simpa [hextable] using hk)]
    decide

/-- The runes of a hex encoding are hex digits. -/
theorem hexEncode_mem (b : Bytes) : ∀ c ∈ (hexEncode b).data, c ∈ hextable := by
  intro c hc
  simp only [hexEncode, List.mem_flatMap, List.mem_cons, List.mem_singleton,
    List.not_mem_nil, or_false] at hc
  obtain ⟨v, -, rfl | rfl⟩ := hc
  · exact hextable_getD_mem _
  · exact hextable_getD_mem _

theorem generateID_eq (r : RandOutcome) : generateID r = hexEncode r.buf := by
  unfold generateID
  split <;> rfl

theorem hextable_plain : ∀ c ∈ hextable, isMeta c = false ∧ c ≠ '/' ∧ c ≠ '.' := by decide

/-- A generated identifier has no pattern rune. -/
theorem generateID_literal (r : RandOutcome) : isLiteral (generateID r) = true := by
  rw [generateID_eq]
  unfold isLiteral
  rw [List.all_eq_true]
  intro c hc
  simp [(hextable_plain c (hexEncode_mem _ c hc)).1]

theorem isAlnum_plain (c : Char) (h : isAlnum c = true) : c ≠ '/' ∧ c ≠ '.' := by
  constructor
  · rintro rfl
    exact absurd h (by decide)
  · rintro rfl
    exact absurd h (by decide)

/-- What `sanitizeExt` returns: the letters and digits of the hint, or `bin`. -/
theorem sanitizeExt_data (hint : String) :
    (sanitizeExt hint).data =
      if hint.data.filter isAlnum = [] then ['b', 'i', 'n'] else hint.data.filter isAlnum := by
  unfold sanitizeExt
  by_cases h : hint.data.filter isAlnum = []
  · simp [h]
  · have h' : (hint.data.filter isAlnum).length ≠ 0 := by
      simpa [List.length_eq_zero] using h
    simp [h, h']

theorem sanitizeExt_alnum (hint : String) : ∀ c ∈ (sanitizeExt hint).data, isAlnum c = true := by
  intro c hc
  rw [sanitizeExt_data] at hc
  split at hc
  · revert c
    decide
  · exact (List.mem_filter.mp hc).2

theorem sanitizeExt_ne_nil (hint : String) : (sanitizeExt hint).data ≠ [] := by
  rw [sanitizeExt_data]
  split
  · simp
  · assumption

/-- The name `Save` builds: identifier, dot, sanitized extension. -/
theorem saveName_data (id hint : String) :
    (saveName id hint).data = id.data ++ '.' :: (sanitizeExt hint).data := by
  unfold saveName
  by_cases h : hint = ""
  · subst h
    simp [String.data_append]
    rfl
  · simp [h, String.data_append]

theorem saveName_namedUnder (id hint : String) : namedUnder id (saveName id hint) = true := by
  unfold namedUnder
  rw [saveName_data, List.isPrefixOf_iff_prefix]
  exact ⟨(sanitizeExt hint).data, by simp⟩

theorem saveName_tail (id hint : String) :
    ((saveName id hint).data.drop (id.data.length + 1)).contains '/' = false := by
  have hd : (saveName id hint).data.drop (id.data.length + 1) = (sanitizeExt hint).data := by
    rw [saveName_data]
    have : id.data ++ '.' :: (sanitizeExt hint).data
        = (id.data ++ ['.']) ++ (sanitizeExt hint).data := by simp
    rw [this, List.drop_left' (by simp)]
  rw [hd]
  rw [Bool.eq_false_iff]
  intro hc
  have hm : '/' ∈ (sanitizeExt hint).data := by simpa using hc
  exact (isAlnum_plain _ (sanitizeExt_alnum hint _ hm)).1 rfl

/-- A successful `Save` returns the generated identifier and has written the whole file. -/
theorem save_ok (d : Dir) (rnd : RandOutcome) (fault : Fault) (b : Bytes) (hint id : String)
    (d' : Dir) (hs : Save d rnd fault b hint = (.ok id, d')) :
    id = generateID rnd ∧ d' = writeFile d (saveName id hint) b := by
  cases fault <;> simp [Save] at hs
  obtain ⟨h1, h2⟩ := hs
  subst h1
  exact ⟨rfl, h2.symm⟩

/-! ## `io.Copy` through a `LimitedReader` -/

/-- With one round more than the source has bytes, the copy loop delivers the first `N`
bytes of the source (none when `N` is not positive). -/
theorem readFrom_eq (fuel : Nat) : ∀ (N : Int) (src buf : Bytes), src.length < fuel →
    readFrom fuel N src buf = buf ++ src.take N.toNat := by
  induction fuel with
  | zero => intro N src buf h; omega
  | succ f ih =>
    intro N src buf h
    unfold readFrom limitedRead
    by_cases hN : N ≤ 0
    · have h0 : N.toNat = 0 := by omega
      simp [hN, h0]
    · rw [if_neg hN]
      by_cases hs : src = []
      · subst hs
        simp
      · rw [if_neg hs]
        have hpos : 0 < src.length := List.length_pos.mpr hs
        simp only []
        split
        · -- plen = N.toNat
          rename_i hlt
          have hlen : (src.drop N.toNat).length < f := by
            rw [List.length_drop]
            omega
          rw [ih _ _ _ hlen, List.append_assoc]
          congr 1
          have : ((src.drop N.toNat).take
              (N - ((src.take N.toNat).length : Int)).toNat) = [] := by
            by_cases hle : N.toNat ≤ src.length
            · have : (N - ((src.take N.toNat).length : Int)).toNat = 0 := by
                rw [List.length_take]
                omega
              rw [this]
              rfl
            · rw [List.drop_eq_nil_of_le (by omega)]
              exact List.take_nil
          rw [this, List.append_nil]
        · rename_i hge
          have hm : minRead = 512 := rfl
          have hlen : (src.drop minRead).length < f := by
            rw [List.length_drop]
            omega
          rw [ih _ _ _ hlen, List.append_assoc]
          congr 1
          by_cases hle : minRead ≤ src.length
          · have e : (N - ((src.take minRead).length : Int)).toNat = N.toNat - minRead := by
              rw [List.length_take]
              omega
            rw [e]
            have e2 : N.toNat = minRead + (N.toNat - minRead) := by omega
            conv_rhs => rw [e2, List.take_add]
          · rw [List.drop_eq_nil_of_le (by omega), List.take_nil, List.append_nil,
              List.take_of_length_le (by omega), List.take_of_length_le (by omega)]

theorem wrapInt64_id (x : Int) (h1 : -2 ^ 63 ≤ x) (h2 : x < 2 ^ 63) : wrapInt64 x = x := by
  unfold wrapInt64
  omega

/-! ## `strconv.Atoi` -/

/-- The value of a digit string grows with every digit read. -/
theorem foldl_digits_ge (ds : List Char) : ∀ n : Nat,
    n ≤ ds.foldl (fun n c => n * 10 + digitVal c) n := by
  induction ds with
  | nil => intro n; exact Nat.le_refl n
  | cons c rest ih =>
    intro n
    have := ih (n * 10 + digitVal c)
    simp only [List.foldl_cons]
    omega

/-- The fast path of `Atoi` on digits computes their value. -/
theorem atoiFast_digits (ds : List Char) (hd : ∀ c ∈ ds, isDigit c = true) : ∀ n : Nat,
    atoiFast ds (n : Int) = some ((ds.foldl (fun n c => n * 10 + digitVal c) n : Nat) : Int) := by
  induction ds with
  | nil => intro n; rfl
  | cons c rest ih =>
    intro n
    have hc := hd c (List.mem_cons_self _ _)
    have := ih (fun x hx => hd x (List.mem_cons_of_mem _ hx)) (n * 10 + digitVal c)
    simp only [atoiFast, hc, if_true, List.foldl_cons]
    rw [← this]
    push_cast
    rfl

/-- The loop of `ParseUint` on digits whose value fits 64 bits computes that value. -/
theorem parseUintLoop_digits (ds : List Char) (hd : ∀ c ∈ ds, isDigit c = true) : ∀ n : Nat,
    ds.foldl (fun n c => n * 10 + digitVal c) n < 2 ^ 64 →
    parseUintLoop ds n = (ds.foldl (fun n c => n * 10 + digitVal c) n, none) := by
  induction ds with
  | nil => intro n _; rfl
  | cons c rest ih =>
    intro n hv
    have hc := hd c (List.mem_cons_self _ _)
    simp only [List.foldl_cons] at hv
    have hge := foldl_digits_ge rest (n * 10 + digitVal c)
    have h1 : n * 10 + digitVal c < 2 ^ 64 := by omega
    have h2 : ¬ n ≥ (2 ^ 64 - 1) / 10 + 1 := by omega
    have h3 : (n * 10) % 2 ^ 64 = n * 10 := Nat.mod_eq_of_lt (by omega)
    have h4 : (n * 10 + digitVal c) % 2 ^ 64 = n * 10 + digitVal c := Nat.mod_eq_of_lt h1
    have h5 : ¬ (n * 10 + digitVal c < n * 10 ∨ n * 10 + digitVal c > 2 ^ 64 - 1) := by omega
    simp only [parseUintLoop, hc, if_true, h2, if_false, h3, h4, h5, List.foldl_cons]
    exact ih (fun x hx => hd x (List.mem_cons_of_mem _ hx)) _ hv

theorem isDigit_not_sign (c : Char) (h : isDigit c = true) : c ≠ '-' ∧ c ≠ '+' := by
  constructor
  · rintro rfl
    exact absurd h (by decide)
  · rintro rfl
    exact absurd h (by decide)

theorem strconvParseInt_error_value (l : List Char) :
    ((strconvParseInt l).2 = some .syntaxErr → (strconvParseInt l).1 = 0) ∧
    ((strconvParseInt l).2 = some .rangeErr →
      (strconvParseInt l).1 = 2 ^ 63 - 1 ∨ (strconvParseInt l).1 = -2 ^ 63) := by
  cases l with
  | nil => simp [strconvParseInt]
  | cons c rest =>
    simp only [strconvParseInt]
    generalize ParseUint (if c = '+' ∨ c = '-' then rest else c :: rest) = pu
    obtain ⟨un, err⟩ := pu
    simp only []
    split
    · rename_i he
      simp [he]
    · split
      · simp [intSize]
      · split
        · simp [intSize]
        · simp

/-- The options of a request without query parameters. -/
theorem parseOptions_empty (tl : Char → Char) (target : String) :
    parseOptions tl (fun _ => "") target = ⟨target, 0, false, 0, 0, false⟩ := by
  have hb : ParseBool tl "" = false := by
    simp [ParseBool, ToLower, TrimSpace]
  unfold parseOptions
  simp only [hb]
  by_cases h : target = ""
  · subst h
    simp
  · simp [h]

/-! ## Splitting a path element -/

/-- A byte that does not occur has no last index. -/
theorem lastIndexByte_absent (l : List Char) (c : Char) (h : c ∉ l) :
    lastIndexByte l c = -1 := by
  unfold lastIndexByte
  have : l.reverse.takeWhile (fun x => decide (x ≠ c)) = l.reverse := by
    rw [List.takeWhile_eq_self_iff]
    intro x hx
    have hxl : x ∈ l := List.mem_reverse.mp hx
    have : x ≠ c := fun e => h (e ▸ hxl)
    simpa using this
  rw [this, List.length_reverse, if_pos rfl]

/-- The last index of a byte that does not occur after it. -/
theorem lastIndexByte_split (a b : List Char) (c : Char) (h : c ∉ b) :
    lastIndexByte (a ++ c :: b) c = (a.length : Int) := by
  unfold lastIndexByte
  have hr : (a ++ c :: b).reverse = b.reverse ++ c :: a.reverse := by simp
  have ht : (b.reverse ++ c :: a.reverse).takeWhile (fun x => decide (x ≠ c)) = b.reverse := by
    rw [List.takeWhile_append_of_pos]
    · simp [List.takeWhile_cons]
    · intro x hx
      have hxl : x ∈ b := List.mem_reverse.mp hx
      have : x ≠ c := fun e => h (e ▸ hxl)
      simpa using this
  rw [hr, ht]
  simp only [List.length_reverse, List.length_append, List.length_cons]
  rw [if_neg (by omega)]
  congr 1
  omega

/-- A path element made of an identifier, a dot and an extension, none with a separator
or a further dot, splits into the identifier and the extension. -/
theorem splitIDExt_id_ext (id ext : String) (hne : id.data ≠ [])
    (hid : ∀ c ∈ id.data, c ≠ '/' ∧ c ≠ '.') (hext : ∀ c ∈ ext.data, c ≠ '/' ∧ c ≠ '.') :
    splitIDExt (id ++ "." ++ ext) = (id, ext) := by
  have hdata : (id ++ "." ++ ext).data = id.data ++ '.' :: ext.data := by
    simp [String.data_append]
  have hnoslash : '/' ∉ id.data ++ '.' :: ext.data := by
    intro hm
    rcases List.mem_append.mp hm with hm | hm
    · exact (hid _ hm).1 rfl
    · rcases List.mem_cons.mp hm with hm | hm
      · exact absurd hm (by decide)
      · exact (hext _ hm).1 rfl
  have hnodot : '.' ∉ ext.data := fun hm => (hext _ hm).2 rfl
  have hne' : id ++ "." ++ ext ≠ "" := by
    intro e
    have := congrArg String.data e
    rw [hdata] at this
    simp at this
  have hstrip : ((id.data ++ '.' :: ext.data).reverse.dropWhile
      (fun c => decide (c = '/'))).reverse = id.data ++ '.' :: ext.data := by
    have hnil : (id.data ++ '.' :: ext.data).reverse ≠ [] := by simp
    cases hrev : (id.data ++ '.' :: ext.data).reverse with
    | nil => exact absurd hrev hnil
    | cons x xs =>
      have hx : x ∈ id.data ++ '.' :: ext.data := by
        rw [← List.mem_reverse, hrev]
        exact List.mem_cons_self _ _
      have hx' : x ≠ '/' := fun e => hnoslash (e ▸ hx)
      rw [List.dropWhile_cons, if_neg (by simpa using hx'), ← hrev, List.reverse_reverse]
  have hbase : Base (id ++ "." ++ ext) = id ++ "." ++ ext := by
    unfold Base
    rw [if_neg hne']
    simp only [hdata, hstrip, lastIndexByte_absent _ _ hnoslash]
    have hneg : ¬ ((-1 : Int) ≥ 0) := by decide
    rw [if_neg hneg, if_neg (by simp)]
    apply String.ext
    rw [hdata]
  have hlen : 0 < id.data.length := List.length_pos.mpr hne
  unfold splitIDExt
  simp only [hbase, hdata, lastIndexByte_split id.data ext.data '.' hnodot]
  rw [if_neg (by omega)]
  have hdrop : (id.data ++ '.' :: ext.data).drop (id.data.length + 1) = ext.data := by
    have : id.data ++ '.' :: ext.data = (id.data ++ ['.']) ++ ext.data := by simp
    rw [this, List.drop_left' (by simp)]
  apply Prod.ext
  · apply String.ext
    simp
  · apply String.ext
    simpa using hdrop

/-! ## C1: the no-op path of `Process` -/

/-- C1: for every byte sequence `b` and every no-op `Options` value, `Process` returns no
error and the bytes `b` themselves, with content type `image/jpeg` or `image/png` when
`DetectFormat` yields that format and `application/octet-stream` when detection fails;
`GetImageWithOptions` on a stored `b` returns the same bytes and content type. -/
theorem process_noop_identity {Img : Type} (L : Lib Img) (tl : Char → Char) (b : Bytes)
    (o : Options) (h : o.IsNoop = true) :
    (∃ ct, Process L tl b o = .ok (b, ct) ∧
      (DetectFormat L tl b = .ok FormatJPEG → ct = "image/jpeg") ∧
      (DetectFormat L tl b = .ok FormatPNG → ct = "image/png") ∧
      ((∃ e, DetectFormat L tl b = .error e) → ct = "application/octet-stream")) ∧
    (∀ (d : Dir) (id : String), Load d id = .ok b →
      GetImageWithOptions L tl d id o = Process L tl b o) := by
  refine ⟨⟨noopContentType (DetectFormat L tl b), ?_, ?_, ?_, ?_⟩, ?_⟩
  · simp [Process, h]
  · intro hj
    rw [hj]
    decide
  · intro hp
    rw [hp]
    decide
  · rintro ⟨e, he⟩
    rw [he]
    rfl
  · intro d id hl
    simp [GetImageWithOptions, Process, hl, h]

/-- C1 at a stored PNG of the example codec: the bytes come back unchanged as
`image/png`, from `Process` and from the service. -/
theorem process_noop_identity_witness :
    Options.zero.IsNoop = true ∧
    Process demoLib id [137, 80, 7] Options.zero = .ok ([137, 80, 7], "image/png") ∧
    GetImageWithOptions demoLib id [("ab.png", [137, 80, 7])] "ab" Options.zero
      = .ok ([137, 80, 7], "image/png") := by
  have h := process_noop_identity demoLib id [137, 80, 7] Options.zero (by decide)
  refine ⟨by decide, ?_, ?_⟩
  · obtain ⟨ct, hp, -, hpng, -⟩ := h.1
    rw [hp, hpng (by decide)]
  · rw [h.2 [("ab.png", [137, 80, 7])] "ab" (by decide)]
    decide

/-! ## C2: saving and loading -/

/-- C2 as stated fails: the store holds a file of the identifier `abab...` with the
extension `bin`; `Save` draws the same identifier and writes `[2]` under the extension
`png`; `Load` then reads the first match in sorted order, the older file with `[1]`. -/
theorem save_load_roundtrip_counterexample :
    Save [(abID ++ ".bin", [1])] (demoRand 171 false) .none [2] "png"
      = (.ok abID, [(abID ++ ".png", [2]), (abID ++ ".bin", [1])]) ∧
    Load [(abID ++ ".png", [2]), (abID ++ ".bin", [1])] abID = .ok [1] ∧
    ¬ ∀ (d : Dir) (rnd : RandOutcome) (b : Bytes) (hint id : String) (d' : Dir),
      Save d rnd .none b hint = (.ok id, d') → Load d' id = .ok b := by
  refine ⟨by decide, by decide, fun h => ?_⟩
  have h1 := h [(abID ++ ".bin", [1])] (demoRand 171 false) [2] "png" abID
    [(abID ++ ".png", [2]), (abID ++ ".bin", [1])] (by decide)
  revert h1
  decide

/-- C2 (amended): if `Save` succeeds and returns the identifier `id`, and the store held no
other file whose name starts with `id` and a dot, then `Load id` on the resulting store
succeeds and returns exactly the bytes that were saved. -/
theorem save_load_roundtrip (d : Dir) (rnd : RandOutcome) (fault : Fault) (b : Bytes)
    (hint id : String) (d' : Dir) (hs : Save d rnd fault b hint = (.ok id, d'))
    (hu : ∀ n ∈ names d, n ≠ saveName id hint → namedUnder id n = false) :
    Load d' id = .ok b := by
  obtain ⟨hid, hd⟩ := save_ok d rnd fault b hint id d' hs
  have hlit : isLiteral id = true := hid ▸ generateID_literal rnd
  have hf0 : (namedUnder id (saveName id hint) &&
      !((saveName id hint).data.drop (id.data.length + 1)).contains '/') = true := by
    rw [saveName_namedUnder, saveName_tail]
    rfl
  have hfil : (names d').filter (fun n =>
      namedUnder id n && !(n.data.drop (id.data.length + 1)).contains '/')
      = [saveName id hint] := by
    rw [hd, names_writeFile, List.filter_cons, if_pos hf0]
    congr 1
    rw [List.filter_eq_nil_iff]
    intro n hn
    obtain ⟨hn1, hn2⟩ := List.mem_filter.mp hn
    have hne : n ≠ saveName id hint := by simpa using hn2
    simp [hu n hn1 hne]
  have hglob := glob_id_star d' id hlit
  have hperm := (sortedNames_perm d').filter (fun n =>
      namedUnder id n && !(n.data.drop (id.data.length + 1)).contains '/')
  rw [hfil] at hperm
  rw [List.perm_singleton.mp hperm] at hglob
  unfold Load
  rw [hglob]
  simp only []
  rw [hd, readFile_writeFile_same]

/-- C2 (amended) at a store with one unrelated file: the saved bytes `[2]` are loaded
back. -/
theorem save_load_roundtrip_witness :
    Save [("cd.png", [9])] (demoRand 171 false) .none [2] "png"
      = (.ok abID, [(abID ++ ".png", [2]), ("cd.png", [9])]) ∧
    Load [(abID ++ ".png", [2]), ("cd.png", [9])] abID = .ok [2] :=
  ⟨by decide,
   save_load_roundtrip [("cd.png", [9])] (demoRand 171 false) .none [2] "png" abID
     [(abID ++ ".png", [2]), ("cd.png", [9])] (by decide) (by decide)⟩

/-! ## C3: resolving an identifier -/

/-- C3 (code bug): the identifier is put into the glob pattern as it is. With one file
stored under `0123...ef`, the identifier `*` resolves to that file although no file is
named `*.` and an extension, the partial identifier `0123*` resolves to it too, and the
identifier `[` fails with a bad-pattern error, not with not-found. -/
theorem load_pattern_identifier :
    namedUnder "*" "0123456789abcdef0123456789abcdef.png" = false ∧
    Load [("0123456789abcdef0123456789abcdef.png", [7])] "*" = .ok [7] ∧
    PathFor [("0123456789abcdef0123456789abcdef.png", [7])] "*"
      = .ok "0123456789abcdef0123456789abcdef.png" ∧
    Load [("0123456789abcdef0123456789abcdef.png", [7])] "0123*" = .ok [7] ∧
    Load [("0123456789abcdef0123456789abcdef.png", [7])] "[" = .error .badPattern := by
  decide

/-- For an identifier without pattern runes `Load` is anchored: what it returns is the
content of a file whose name starts with the identifier and a dot, and it fails with
not-found when no file name does. -/
theorem load_literal_anchored (d : Dir) (id : String) (h : isLiteral id = true) :
    (∀ b, Load d id = .ok b → ∃ n ∈ names d, namedUnder id n = true ∧ readFile d n = some b) ∧
    ((∀ n ∈ names d, namedUnder id n = false) → Load d id = .error .notExist) := by
  have hglob := glob_id_star d id h
  constructor
  · intro b hb
    unfold Load at hb
    rw [hglob] at hb
    cases hc : (sortedNames d).filter (fun n =>
        namedUnder id n && !(n.data.drop (id.data.length + 1)).contains '/') with
    | nil =>
      rw [hc] at hb
      simp at hb
    | cons c cs =>
      rw [hc] at hb
      have hmem : c ∈ (sortedNames d).filter (fun n =>
          namedUnder id n && !(n.data.drop (id.data.length + 1)).contains '/') := by
        rw [hc]
        exact List.mem_cons_self _ _
      obtain ⟨hm1, hm2⟩ := List.mem_filter.mp hmem
      refine ⟨c, (sortedNames_perm d).mem_iff.mp hm1, ?_, ?_⟩
      · simp only [Bool.and_eq_true] at hm2
        exact hm2.1
      · cases hr : readFile d c with
        | none => simp [hr] at hb
        | some b' =>
          simp only [hr] at hb
          injection hb with hb
          rw [hb]
  · intro hn
    have hnil : (sortedNames d).filter (fun n =>
        namedUnder id n && !(n.data.drop (id.data.length + 1)).contains '/') = [] := by
      rw [List.filter_eq_nil_iff]
      intro n hmem
      simp [hn n ((sortedNames_perm d).mem_iff.mp hmem)]
    unfold Load
    rw [hglob, hnil]

/-! ## C4: `Save` and the files that exist -/

/-- C4 (code bug): when the entropy source fails and the array stays zero, `generateID`
returns 32 zeros every time; a second `Save` with the same extension then truncates and
rewrites the file of the first: its content `[1]` becomes `[2]`. -/
theorem save_fallback_overwrites :
    generateID (demoRand 0 true) = zeroID ∧
    Save [] (demoRand 0 true) .none [1] "png" = (.ok zeroID, [(zeroID ++ ".png", [1])]) ∧
    Save [(zeroID ++ ".png", [1])] (demoRand 0 true) .none [2] "png"
      = (.ok zeroID, [(zeroID ++ ".png", [2])]) ∧
    readFile [(zeroID ++ ".png", [1])] (zeroID ++ ".png") = some [1] ∧
    readFile (Save [(zeroID ++ ".png", [1])] (demoRand 0 true) .none [2] "png").2
      (zeroID ++ ".png") = some [2] := by
  decide

/-- When the name `Save` builds is not in the store yet, every file that existed keeps
its content, whatever the file system does to the write. -/
theorem save_fresh_frame (d : Dir) (rnd : RandOutcome) (fault : Fault) (data : Bytes)
    (hint : String) (hnew : saveName (generateID rnd) hint ∉ names d) :
    ∀ n ∈ names d, readFile (Save d rnd fault data hint).2 n = readFile d n := by
  intro n hn
  have hne : n ≠ saveName (generateID rnd) hint := fun e => hnew (e ▸ hn)
  cases fault
  · simp only [Save]
    exact readFile_writeFile_other d _ n _ hne
  · rfl
  · simp only [Save]
    exact readFile_writeFile_other d _ n _ hne

/-! ## C5: the size ceiling -/

/-- C5 (code bug): at the largest `int64` the limit plus one wraps to the smallest, the
limited reader reads nothing, and `CopyLimit` returns an empty slice without an error for
a source of three bytes; `handleUpload` then stores an empty file. -/
theorem copyLimit_max_limit :
    CopyLimit [1, 2, 3] (2 ^ 63 - 1) = .ok [] ∧
    handleUpload (2 ^ 63 - 1) [] (demoRand 171 false) .none
        ⟨"application/octet-stream", [1, 2, 3], "a.png", .missingFile⟩
      = (⟨200, "application/json", .uploadResponse abID⟩, [(abID ++ ".png", [])]) := by
  decide

/-- For every limit below the largest `int64`, `CopyLimit` returns all bytes of a source
that is within the limit and fails with payload-too-large for a longer one. -/
theorem copyLimit_below_max (r : Bytes) (n : Int) (h1 : -2 ^ 63 ≤ n) (h2 : n < 2 ^ 63 - 1) :
    CopyLimit r n = if (r.length : Int) ≤ n then .ok r else .error (.tooLarge n) := by
  unfold CopyLimit
  rw [wrapInt64_id (n + 1) (by omega) (by omega), readFrom_eq _ _ _ _ (by omega)]
  simp only [List.nil_append]
  by_cases h : (r.length : Int) ≤ n
  · rw [if_pos h, List.take_of_length_le (by omega), if_neg (by omega)]
  · rw [if_neg h, if_pos]
    rw [List.length_take]
    omega

/-- When `CopyLimit` fails, `handleUpload` answers 413 and leaves the store as it was. -/
theorem handleUpload_too_large (m : Int) (d : Dir) (rnd : RandOutcome) (fault : Fault)
    (r : UploadRequest) :
    (HasPrefix r.contentType "multipart/form-data" = false →
      ∀ e, CopyLimit r.body m = .error e →
        handleUpload m d rnd fault r = (writeError 413 e, d)) ∧
    (HasPrefix r.contentType "multipart/form-data" = true →
      ∀ f n e, r.form = .file f n → CopyLimit f m = .error e →
        handleUpload m d rnd fault r = (writeError 413 e, d)) := by
  constructor
  · intro hp e he
    simp [handleUpload, hp, he]
  · intro hp f n e hf he
    simp [handleUpload, hp, hf, he]

/-! ## C6: quality clamping -/

/-- C6: for a non-no-op `Options` value and a decodable input, when the chosen output
format is JPEG, `Process` encodes with quality 85 if `Quality` is zero, negative or above
100 and with `Quality` itself if it is between 1 and 100; when the chosen format is PNG,
the result is the same for every `Quality`. -/
theorem process_quality_clamp {Img : Type} (L : Lib Img) (tl : Char → Char) (inp : Bytes)
    (opts : Options) (img : Img) (hn : opts.IsNoop = false) (hd : L.decode inp = .ok img) :
    (chooseTarget L tl inp opts = FormatJPEG →
      ((opts.Quality ≤ 0 ∨ 100 < opts.Quality) →
        Process L tl inp opts =
          (L.jpegEncode (transform L opts img) 85).map (fun out => (out, "image/jpeg"))) ∧
      ((1 ≤ opts.Quality ∧ opts.Quality ≤ 100) →
        Process L tl inp opts =
          (L.jpegEncode (transform L opts img) opts.Quality).map
            (fun out => (out, "image/jpeg")))) ∧
    (chooseTarget L tl inp opts = FormatPNG →
      ∀ q : Int, Process L tl inp { opts with Quality := q } = Process L tl inp opts) := by
  refine ⟨fun ht => ⟨fun hq => ?_, fun hq => ?_⟩, fun ht q => ?_⟩
  · have hq' : jpegQuality opts = 85 := by
      unfold jpegQuality
      rw [if_pos (by omega)]
    simp only [Process, hn, hd, encode, ht, hq']
    cases L.jpegEncode (transform L opts img) 85 <;> rfl
  · have hq' : jpegQuality opts = opts.Quality := by
      unfold jpegQuality
      rw [if_neg (by omega)]
    simp only [Process, hn, hd, encode, ht, hq']
    cases L.jpegEncode (transform L opts img) opts.Quality <;> rfl
  · have hn' : ({ opts with Quality := q } : Options).IsNoop = false := hn
    have ht' : chooseTarget L tl inp { opts with Quality := q } = FormatPNG := ht
    have htr : transform L { opts with Quality := q } img = transform L opts img := rfl
    have hne : FormatPNG ≠ FormatJPEG := by decide
    simp only [Process, hn, hn', hd, encode, ht, ht', htr, hne]
    rfl

/-- C6 at the example codec, whose JPEG output carries the quality as its third byte:
quality 0 and 101 encode at 85, quality 1 and 100 at themselves. -/
theorem process_quality_clamp_witness :
    Process demoLib id [137, 80, 7] ⟨"jpeg", 0, false, 0, 0, false⟩
      = .ok ([255, 216, 85, 7], "image/jpeg") ∧
    Process demoLib id [137, 80, 7] ⟨"jpeg", 101, false, 0, 0, false⟩
      = .ok ([255, 216, 85, 7], "image/jpeg") ∧
    Process demoLib id [137, 80, 7] ⟨"jpeg", 1, false, 0, 0, false⟩
      = .ok ([255, 216, 1, 7], "image/jpeg") ∧
    Process demoLib id [137, 80, 7] ⟨"jpeg", 100, false, 0, 0, false⟩
      = .ok ([255, 216, 100, 7], "image/jpeg") := by
  refine ⟨?_, ?_, ?_, ?_⟩
  · rw [((process_quality_clamp demoLib id [137, 80, 7] ⟨"jpeg", 0, false, 0, 0, false⟩ [7]
      (by decide) (by decide)).1 (by decide)).1 (by decide)]
    decide
  · rw [((process_quality_clamp demoLib id [137, 80, 7] ⟨"jpeg", 101, false, 0, 0, false⟩ [7]
      (by decide) (by decide)).1 (by decide)).1 (by decide)]
    decide
  · rw [((process_quality_clamp demoLib id [137, 80, 7] ⟨"jpeg", 1, false, 0, 0, false⟩ [7]
      (by decide) (by decide)).1 (by decide)).2 (by decide)]
    decide
  · rw [((process_quality_clamp demoLib id [137, 80, 7] ⟨"jpeg", 100, false, 0, 0, false⟩ [7]
      (by decide) (by decide)).1 (by decide)).2 (by decide)]
    decide

/-! ## C7: the name of the stored file -/

/-- C7: unless `os.Create` fails, the file `Save` writes is named identifier, dot,
extension, where the extension is the letters and digits of the hint in their order, or
`bin` when the hint has none; the extension is not empty and alphanumeric, and the name
has no path separator and exactly one dot. -/
theorem save_file_name (d : Dir) (rnd : RandOutcome) (fault : Fault) (data : Bytes)
    (hint : String) (hf : fault ≠ .create) :
    ∃ (ext : String) (content : Bytes),
      (Save d rnd fault data hint).2 = writeFile d (generateID rnd ++ "." ++ ext) content ∧
      ext.data = (if hint.data.filter isAlnum = [] then ['b', 'i', 'n']
        else hint.data.filter isAlnum) ∧
      ext.data ≠ [] ∧ (∀ c ∈ ext.data, isAlnum c = true) ∧
      '/' ∉ (generateID rnd ++ "." ++ ext).data ∧
      (generateID rnd ++ "." ++ ext).data.count '.' = 1 := by
  have hname : saveName (generateID rnd) hint = generateID rnd ++ "." ++ sanitizeExt hint := by
    apply String.ext
    rw [saveName_data]
    simp [String.data_append]
  have hdata : (generateID rnd ++ "." ++ sanitizeExt hint).data
      = (generateID rnd).data ++ '.' :: (sanitizeExt hint).data := by
    simp [String.data_append]
  have hid : ∀ c ∈ (generateID rnd).data, c ≠ '/' ∧ c ≠ '.' := by
    intro c hc
    rw [generateID_eq] at hc
    exact (hextable_plain c (hexEncode_mem _ c hc)).2
  have hext : ∀ c ∈ (sanitizeExt hint).data, c ≠ '/' ∧ c ≠ '.' :=
    fun c hc => isAlnum_plain c (sanitizeExt_alnum hint c hc)
  refine ⟨sanitizeExt hint, match fault with | .write k => data.take k | _ => data,
    ?_, sanitizeExt_data hint, sanitizeExt_ne_nil hint, sanitizeExt_alnum hint, ?_, ?_⟩
  · cases fault
    · simp only [Save, hname]
    · exact absurd rfl hf
    · simp only [Save, hname]
  · rw [hdata]
    intro hm
    rcases List.mem_append.mp hm with hm | hm
    · exact (hid _ hm).1 rfl
    · rcases List.mem_cons.mp hm with hm | hm
      · exact absurd hm (by decide)
      · exact (hext _ hm).1 rfl
  · rw [hdata, List.count_append, List.count_cons_self,
      List.count_eq_zero.mpr (fun hm => (hid _ hm).2 rfl),
      List.count_eq_zero.mpr (fun hm => (hext _ hm).2 rfl)]

/-- C7 at the hint `p.n/g`: the file is named `abab...ab.png`. -/
theorem save_file_name_witness :
    Fault.none ≠ Fault.create ∧
    ∃ (ext : String) (content : Bytes),
      (Save [] (demoRand 171 false) .none [1] "p.n/g").2
        = writeFile [] (abID ++ "." ++ ext) content ∧
      ext.data = ['p', 'n', 'g'] := by
  refine ⟨by decide, ?_⟩
  obtain ⟨ext, content, h1, h2, -⟩ :=
    save_file_name [] (demoRand 171 false) .none [1] "p.n/g" (by decide)
  exact ⟨ext, content, h1, by rw [h2]; decide⟩

/-! ## C8: `ParseInt` -/

/-- C8 (code bug): for the decimal string of 2^63 `strconv.Atoi` reports a range error
and returns the largest `int64`; `ParseInt` drops the error and returns that value, not
zero. -/
theorem parseInt_range_error :
    (Atoi "9223372036854775808").2 = some Err.rangeErr ∧
    ParseInt "9223372036854775808" = 9223372036854775807 := by
  decide

/-- On a syntax error `ParseInt` returns zero; on a range error it returns the largest or
the smallest `int64`. -/
theorem atoi_error_value (s : String) :
    ((Atoi s).2 = some .syntaxErr → ParseInt s = 0) ∧
    ((Atoi s).2 = some .rangeErr → ParseInt s = 2 ^ 63 - 1 ∨ ParseInt s = -2 ^ 63) := by
  unfold ParseInt Atoi
  simp only []
  split
  · cases s.data with
    | nil => simp
    | cons c rest =>
      simp only []
      generalize (if c = '-' ∨ c = '+' then rest else c :: rest) = digits
      split
      · simp
      · cases atoiFast digits 0 <;> simp
  · exact strconvParseInt_error_value s.data

/-- On a string of decimal digits whose value fits an `int64`, with or without a sign,
`strconv.Atoi` reports no error and `ParseInt` returns the number denoted. -/
theorem parseInt_denotes (ds : List Char) (hne : ds ≠ []) (hd : ∀ c ∈ ds, isDigit c = true)
    (hv : decValue ds < 2 ^ 63) :
    Atoi ⟨ds⟩ = ((decValue ds : Int), none) ∧
    Atoi ⟨'+' :: ds⟩ = ((decValue ds : Int), none) ∧
    Atoi ⟨'-' :: ds⟩ = (-(decValue ds : Int), none) := by
  have hfast := atoiFast_digits ds hd 0
  have hslow : ParseUint ds = (decValue ds, none) := by
    unfold ParseUint
    rw [if_neg hne]
    exact parseUintLoop_digits ds hd 0 (by unfold decValue at hv; omega)
  have hplus : ('+' : Char) ≠ '-' := by decide
  have hcut : ¬ (decValue ds ≥ 2 ^ (intSize - 1)) := by
    simp only [intSize]
    omega
  have hcut' : ¬ (decValue ds > 2 ^ (intSize - 1)) := by
    simp only [intSize]
    omega
  refine ⟨?_, ?_, ?_⟩
  · cases hds : ds with
    | nil => exact absurd hds hne
    | cons c rest =>
      have hc := isDigit_not_sign c (hd c (hds ▸ List.mem_cons_self _ _))
      rw [hds] at hfast hslow hcut
      unfold Atoi
      simp only []
      split
      · simp only [hc.1, hc.2, or_self, if_false]
        rw [if_neg (by simp)]
        simp only [Nat.cast_zero] at hfast
        simp only [hfast]
        rfl
      · simp only [strconvParseInt, hc.1, hc.2, or_self, if_false, hslow]
        simp [hcut]
  · unfold Atoi
    simp only []
    split
    · simp only [or_true, if_true, hne, if_false]
      simp only [Nat.cast_zero] at hfast
      simp only [hfast, hplus, if_false]
      rfl
    · simp only [strconvParseInt, true_or, if_true, hslow, hplus]
      simp [hcut]
  · unfold Atoi
    simp only []
    split
    · simp only [true_or, if_true, hne, if_false]
      simp only [Nat.cast_zero] at hfast
      simp only [hfast]
      rfl
    · simp only [strconvParseInt, or_true, if_true, hslow]
      simp [hcut']

/-! ## C9: `ParseBool` -/

/-- C9 as stated fails: the string ` true ` with a blank on either side is not one of the
four words under any case, and `ParseBool` returns true for it. -/
theorem parseBool_trims_counterexample :
    ParseBool id " true " = true ∧
    ToLower id " true " ∉ ["1", "true", "yes", "on"] ∧
    ¬ ∀ (tl : Char → Char) (s : String),
      (ParseBool tl s = true ↔ ToLower tl s ∈ ["1", "true", "yes", "on"]) :=
  ⟨by decide, by decide, fun h => absurd ((h id " true ").1 (by decide)) (by decide)⟩

/-- C9 (amended): `ParseBool s` is true exactly when the lower-cased `s` is one of `1`,
`true`, `yes`, `on` with nothing but white space before and after it; it is false for
every other string. -/
theorem parseBool_true_iff (tl : Char → Char) (s : String) :
    ParseBool tl s = true ↔
      ∃ t ∈ ["1", "true", "yes", "on"], ∃ l r : List Char,
        (ToLower tl s).data = l ++ String.data t ++ r ∧
        (∀ c ∈ l, isSpace c = true) ∧ (∀ c ∈ r, isSpace c = true) := by
  have h1 := trimSpace_eq_iff (ToLower tl s) "1" ⟨'1', [], rfl, by decide⟩
    ⟨[], '1', rfl, by decide⟩
  have h2 := trimSpace_eq_iff (ToLower tl s) "true" ⟨'t', _, rfl, by decide⟩
    ⟨['t', 'r', 'u'], 'e', rfl, by decide⟩
  have h3 := trimSpace_eq_iff (ToLower tl s) "yes" ⟨'y', _, rfl, by decide⟩
    ⟨['y', 'e'], 's', rfl, by decide⟩
  have h4 := trimSpace_eq_iff (ToLower tl s) "on" ⟨'o', _, rfl, by decide⟩
    ⟨['o'], 'n', rfl, by decide⟩
  simp only [ParseBool, Bool.or_eq_true, beq_iff_eq, h1, h2, h3, h4, List.mem_cons,
    List.mem_singleton, List.not_mem_nil, or_false, exists_eq_or_imp, exists_eq_left, or_assoc]

/-! ## C10: content-type negotiation -/

/-- C10: for a GET request below `/images/`, the target format comes from the path
extension when there is one (`jpg` and `jpeg` give JPEG, `png` gives PNG, in any case; any
other extension is answered 400), otherwise from the `Accept` header (`image/jpeg` or
`image/jpg` gives JPEG, else `image/png` gives PNG), otherwise it is unset. Hence for a
stored PNG and no query, a request with `.jpg` or with `Accept: image/jpeg` is answered
`image/jpeg`, and a request with neither is answered `image/png` with the stored bytes. -/
theorem handleGetImage_negotiation {Img : Type} (L : Lib Img) (tl : Char → Char) (d : Dir)
    (r : GetRequest) (hm : r.method = "GET")
    (ht : TrimPrefix r.path "/images/" ≠ "" ∧ TrimPrefix r.path "/images/" ≠ "/") :
    let id := (splitIDExt (TrimPrefix r.path "/images/")).1
    let ext := (splitIDExt (TrimPrefix r.path "/images/")).2
    (ext ≠ "" →
      ((ToLower tl ext = "jpg" ∨ ToLower tl ext = "jpeg") →
        handleGetImage L tl d r = respond L tl d id (parseOptions tl r.query FormatJPEG)) ∧
      (ToLower tl ext = "png" →
        handleGetImage L tl d r = respond L tl d id (parseOptions tl r.query FormatPNG)) ∧
      (ToLower tl ext ∉ ["jpg", "jpeg", "png"] →
        handleGetImage L tl d r = httpError "unsupported format" 400)) ∧
    (ext = "" →
      ((Contains r.accept "image/jpeg" = true ∨ Contains r.accept "image/jpg" = true) →
        handleGetImage L tl d r = respond L tl d id (parseOptions tl r.query FormatJPEG)) ∧
      (Contains r.accept "image/jpeg" = false → Contains r.accept "image/jpg" = false →
        Contains r.accept "image/png" = true →
        handleGetImage L tl d r = respond L tl d id (parseOptions tl r.query FormatPNG)) ∧
      (Contains r.accept "image/jpeg" = false → Contains r.accept "image/jpg" = false →
        Contains r.accept "image/png" = false →
        handleGetImage L tl d r = respond L tl d id (parseOptions tl r.query ""))) ∧
    (∀ (b : Bytes) (img : Img) (out : Bytes), r.query = (fun _ => "") →
      Load d id = .ok b → DetectFormat L tl b = .ok FormatPNG →
      L.decode b = .ok img → L.jpegEncode img 85 = .ok out →
      (((ext ≠ "" ∧ ToLower tl ext = "jpg") ∨
          (ext = "" ∧ Contains r.accept "image/jpeg" = true)) →
        handleGetImage L tl d r = ⟨200, "image/jpeg", .image out⟩) ∧
      ((ext = "" ∧ Contains r.accept "image/jpeg" = false ∧
          Contains r.accept "image/jpg" = false ∧ Contains r.accept "image/png" = false) →
        handleGetImage L tl d r = ⟨200, "image/png", .image b⟩)) := by
  intro id ext
  have hj : ("jpeg" : String) ≠ "jpg" := by decide
  have hp1 : ("png" : String) ≠ "jpg" := by decide
  have hp2 : ("png" : String) ≠ "jpeg" := by decide
  have hsome : ∀ t, negotiate tl ext r.accept = some t →
      handleGetImage L tl d r = respond L tl d id (parseOptions tl r.query t) := by
    intro t h
    simp only [handleGetImage, hm, ht.1, ht.2, ne_eq, not_true_eq_false, if_false, or_self]
    rw [show negotiate tl (splitIDExt (TrimPrefix r.path "/images/")).2 r.accept = some t
      from h]
  have hnone : negotiate tl ext r.accept = none →
      handleGetImage L tl d r = httpError "unsupported format" 400 := by
    intro h
    simp only [handleGetImage, hm, ht.1, ht.2, ne_eq, not_true_eq_false, if_false, or_self]
    rw [show negotiate tl (splitIDExt (TrimPrefix r.path "/images/")).2 r.accept = none
      from h]
  refine ⟨fun he => ⟨fun h => ?_, fun h => ?_, fun h => ?_⟩,
    fun he => ⟨fun h => ?_, fun h1 h2 h3 => ?_, fun h1 h2 h3 => ?_⟩, ?_⟩
  · exact hsome _ (by simp [negotiate, he, h])
  · exact hsome _ (by simp [negotiate, he, h, hp1, hp2])
  · simp only [List.mem_cons, List.mem_singleton, List.not_mem_nil, or_false, not_or] at h
    exact hnone (by simp [negotiate, he, h.1, h.2.1, h.2.2])
  · exact hsome _ (by simp [negotiate, he, h])
  · exact hsome _ (by simp [negotiate, he, h1, h2, h3])
  · exact hsome _ (by simp [negotiate, he, h1, h2, h3])
  · intro b img out hq hl hdet hdec henc
    have hdet' : DetectFormat L tl b = .ok "png" := hdet
    constructor
    · intro h
      have hn : negotiate tl ext r.accept = some FormatJPEG := by
        rcases h with ⟨he, h⟩ | ⟨he, h⟩
        · simp [negotiate, he, h]
        · simp [negotiate, he, h]
      rw [hsome _ hn, hq, parseOptions_empty]
      simp [respond, GetImageWithOptions, hl, Process, Options.IsNoop, FormatJPEG, hdec,
        encode, chooseTarget, transform, jpegQuality, henc]
    · rintro ⟨he, h1, h2, h3⟩
      have hn : negotiate tl ext r.accept = some "" := by
        simp [negotiate, he, h1, h2, h3]
      rw [hsome _ hn, hq, parseOptions_empty]
      simp [respond, GetImageWithOptions, hl, Options.IsNoop, hdet', noopContentType,
        FormatJPEG, FormatPNG]

/-- C10 at a stored PNG of the example codec: `.jpg` and `Accept: image/jpeg` answer
`image/jpeg`, neither answers `image/png`. -/
theorem handleGetImage_negotiation_witness :
    handleGetImage demoLib id [(abID ++ ".png", [137, 80, 1, 2, 3])]
        ⟨"GET", "/images/" ++ abID ++ ".jpg", "", fun _ => ""⟩
      = ⟨200, "image/jpeg", .image [255, 216, 85, 1, 2, 3]⟩ ∧
    handleGetImage demoLib id [(abID ++ ".png", [137, 80, 1, 2, 3])]
        ⟨"GET", "/images/" ++ abID, "image/jpeg", fun _ => ""⟩
      = ⟨200, "image/jpeg", .image [255, 216, 85, 1, 2, 3]⟩ ∧
    handleGetImage demoLib id [(abID ++ ".png", [137, 80, 1, 2, 3])]
        ⟨"GET", "/images/" ++ abID, "", fun _ => ""⟩
      = ⟨200, "image/png", .image [137, 80, 1, 2, 3]⟩ := by
  refine ⟨?_, ?_, ?_⟩
  · exact ((handleGetImage_negotiation demoLib id [(abID ++ ".png", [137, 80, 1, 2, 3])]
      ⟨"GET", "/images/" ++ abID ++ ".jpg", "", fun _ => ""⟩ (by decide) (by decide)).2.2
      [137, 80, 1, 2, 3] [1, 2, 3] [255, 216, 85, 1, 2, 3] rfl (by decide) (by decide)
      (by decide) (by decide)).1 (Or.inl (by decide))
  · exact ((handleGetImage_negotiation demoLib id [(abID ++ ".png", [137, 80, 1, 2, 3])]
      ⟨"GET", "/images/" ++ abID, "image/jpeg", fun _ => ""⟩ (by decide) (by decide)).2.2
      [137, 80, 1, 2, 3] [1, 2, 3] [255, 216, 85, 1, 2, 3] rfl (by decide) (by decide)
      (by decide) (by decide)).1 (Or.inr (by decide))
  · exact ((handleGetImage_negotiation demoLib id [(abID ++ ".png", [137, 80, 1, 2, 3])]
      ⟨"GET", "/images/" ++ abID, "", fun _ => ""⟩ (by decide) (by decide)).2.2
      [137, 80, 1, 2, 3] [1, 2, 3] [255, 216, 85, 1, 2, 3] rfl (by decide) (by decide)
      (by decide) (by decide)).2 (by decide)

/-! ## The steps of `Process` -/

/-- A format that `DetectFormat` reports is JPEG or PNG. -/
theorem detectFormat_ok {Img : Type} (L : Lib Img) (tl : Char → Char) (b : Bytes) (f : String)
    (h : DetectFormat L tl b = .ok f) : f = FormatJPEG ∨ f = FormatPNG := by
  unfold DetectFormat at h
  split at h
  · simp at h
  · simp only [] at h
    split at h
    · left
      injection h with h
      exact h.symm
    · split at h
      · right
        injection h with h
        exact h.symm
      · simp at h

/-- A non-no-op `Process` on a decodable input is the encoding step on the transformed
raster in the chosen format. -/
theorem process_eq_encode {Img : Type} (L : Lib Img) (tl : Char → Char) (inp : Bytes)
    (opts : Options) (img : Img) (hn : opts.IsNoop = false) (hd : L.decode inp = .ok img) :
    Process L tl inp opts = encode L (chooseTarget L tl inp opts) opts (transform L opts img) := by
  simp only [Process, hn, hd]
  rfl

/-- The encoding step in JPEG. -/
theorem encode_jpeg {Img : Type} (L : Lib Img) (opts : Options) (img : Img) :
    encode L FormatJPEG opts img =
      (L.jpegEncode img (jpegQuality opts)).map (fun out => (out, "image/jpeg")) := by
  simp only [encode, if_true]
  cases L.jpegEncode img (jpegQuality opts) <;> rfl

/-- The encoding step in PNG. -/
theorem encode_png {Img : Type} (L : Lib Img) (opts : Options) (img : Img) :
    encode L FormatPNG opts img = (L.pngEncode img).map (fun out => (out, "image/png")) := by
  have hne : FormatPNG ≠ FormatJPEG := by decide
  simp only [encode, if_neg hne, if_true]
  cases L.pngEncode img <;> rfl

/-- A successful encoding carries the content type of its format. -/
theorem map_ok_contentType (x : Except Err Bytes) (t : String) (out : Bytes) (ct : String)
    (h : x.map (fun o => (o, t)) = .ok (out, ct)) : ct = t := by
  cases x with
  | error e => cases h
  | ok o =>
    simp only [Except.map] at h
    injection h with h
    exact (congrArg Prod.snd h).symm

/-! ## C11: the order of the transformations -/

/-- C11: for a decodable input and a non-no-op `Options` value, `Process` encodes the
raster obtained in this order: grayscale first, exactly when `Grayscale` is set; then the
thumbnail to `(Width, Height)` exactly when `Thumbnail` is set and both sizes are positive;
otherwise the resize with `(Width, Height)` exactly when at least one size is positive;
otherwise no resizing at all. The three library functions are taken as given. -/
theorem process_transform_order {Img : Type} (L : Lib Img) (tl : Char → Char) (inp : Bytes)
    (opts : Options) (img : Img) (hn : opts.IsNoop = false) (hd : L.decode inp = .ok img) :
    let gray := if opts.Grayscale = true then L.grayscale img else img
    let finish := encode L (chooseTarget L tl inp opts) opts
    (opts.Thumbnail = true ∧ 0 < opts.Width ∧ 0 < opts.Height →
      Process L tl inp opts = finish (L.thumbnail gray opts.Width opts.Height)) ∧
    (¬ (opts.Thumbnail = true ∧ 0 < opts.Width ∧ 0 < opts.Height) →
      (0 < opts.Width ∨ 0 < opts.Height) →
      Process L tl inp opts = finish (L.resize gray opts.Width opts.Height)) ∧
    (¬ (0 < opts.Width ∨ 0 < opts.Height) →
      Process L tl inp opts = finish gray) := by
  intro gray finish
  have hp : Process L tl inp opts = finish (transform L opts img) := by
    simp only [Process, hn, hd]
    rfl
  refine ⟨fun h => ?_, fun h1 h2 => ?_, fun h => ?_⟩
  · have hw : opts.Width > 0 ∨ opts.Height > 0 := Or.inl h.2.1
    have ht : opts.Thumbnail = true ∧ opts.Width > 0 ∧ opts.Height > 0 := h
    rw [hp]
    unfold transform
    simp only [if_pos hw, if_pos ht]
  · have hw : opts.Width > 0 ∨ opts.Height > 0 := h2
    have ht : ¬ (opts.Thumbnail = true ∧ opts.Width > 0 ∧ opts.Height > 0) := h1
    rw [hp]
    unfold transform
    simp only [if_pos hw, if_neg ht]
  · have hw : ¬ (opts.Width > 0 ∨ opts.Height > 0) := h
    rw [hp]
    unfold transform
    simp only [if_neg hw]

/-- C11 at the recording codec: grayscale then thumbnail 50 by 50; resize alone when one
size is zero, whatever `Thumbnail` says; grayscale alone when both sizes are zero. -/
theorem process_transform_order_witness :
    Process recLib id [137, 80, 9] ⟨"png", 0, true, 50, 50, true⟩
      = .ok ([1, 2, 50, 50], "image/png") ∧
    Process recLib id [137, 80, 9] ⟨"png", 0, false, 50, 0, true⟩
      = .ok ([3, 50, 0], "image/png") ∧
    Process recLib id [137, 80, 9] ⟨"png", 0, true, 0, 0, true⟩
      = .ok ([1], "image/png") := by
  refine ⟨?_, ?_, ?_⟩
  · rw [(process_transform_order recLib id [137, 80, 9] ⟨"png", 0, true, 50, 50, true⟩ []
      (by decide) (by decide)).1 (by decide)]
    decide
  · rw [(process_transform_order recLib id [137, 80, 9] ⟨"png", 0, false, 50, 0, true⟩ []
      (by decide) (by decide)).2.1 (by decide) (by decide)]
    decide
  · rw [(process_transform_order recLib id [137, 80, 9] ⟨"png", 0, true, 0, 0, true⟩ []
      (by decide) (by decide)).2.2 (by decide)]
    decide

/-! ## C12: the output format -/

/-- C12: for a decodable input and a non-no-op `Options` value, `Process` encodes in the
explicit `Target` when it is set (JPEG or PNG; any other target is the unsupported-format
error), otherwise in the format `DetectFormat` reports for the original bytes, and in PNG
when that detection fails. On success the content type is `image/jpeg` for the JPEG
encoding and `image/png` for the PNG encoding. -/
theorem process_output_format {Img : Type} (L : Lib Img) (tl : Char → Char) (inp : Bytes)
    (opts : Options) (img : Img) (hn : opts.IsNoop = false) (hd : L.decode inp = .ok img) :
    let asJPEG : Except Err (Bytes × String) :=
      (L.jpegEncode (transform L opts img) (jpegQuality opts)).map
        (fun out => (out, "image/jpeg"))
    let asPNG : Except Err (Bytes × String) :=
      (L.pngEncode (transform L opts img)).map (fun out => (out, "image/png"))
    (opts.Target = FormatJPEG → Process L tl inp opts = asJPEG) ∧
    (opts.Target = FormatPNG → Process L tl inp opts = asPNG) ∧
    (opts.Target = "" → DetectFormat L tl inp = .ok FormatJPEG →
      Process L tl inp opts = asJPEG) ∧
    (opts.Target = "" → DetectFormat L tl inp = .ok FormatPNG →
      Process L tl inp opts = asPNG) ∧
    (opts.Target = "" → (∀ e, DetectFormat L tl inp = .error e →
      Process L tl inp opts = asPNG)) ∧
    (opts.Target ≠ "" → opts.Target ≠ FormatJPEG → opts.Target ≠ FormatPNG →
      Process L tl inp opts = .error (.unsupported none)) ∧
    (∀ out ct, Process L tl inp opts = .ok (out, ct) →
      (ct = "image/jpeg" ∧ Process L tl inp opts = asJPEG) ∨
      (ct = "image/png" ∧ Process L tl inp opts = asPNG)) := by
  intro asJPEG asPNG
  have hp := process_eq_encode L tl inp opts img hn hd
  have c1 : opts.Target = FormatJPEG → Process L tl inp opts = asJPEG := by
    intro h
    have hc : chooseTarget L tl inp opts = FormatJPEG := by
      simp [chooseTarget, h, FormatJPEG]
    rw [hp, hc, encode_jpeg]
  have c2 : opts.Target = FormatPNG → Process L tl inp opts = asPNG := by
    intro h
    have hc : chooseTarget L tl inp opts = FormatPNG := by
      simp [chooseTarget, h, FormatPNG]
    rw [hp, hc, encode_png]
  have c3 : opts.Target = "" → DetectFormat L tl inp = .ok FormatJPEG →
      Process L tl inp opts = asJPEG := by
    intro h hdet
    have hc : chooseTarget L tl inp opts = FormatJPEG := by
      simp [chooseTarget, h, hdet]
    rw [hp, hc, encode_jpeg]
  have c4 : opts.Target = "" → DetectFormat L tl inp = .ok FormatPNG →
      Process L tl inp opts = asPNG := by
    intro h hdet
    have hc : chooseTarget L tl inp opts = FormatPNG := by
      simp [chooseTarget, h, hdet]
    rw [hp, hc, encode_png]
  have c5 : opts.Target = "" → ∀ e, DetectFormat L tl inp = .error e →
      Process L tl inp opts = asPNG := by
    intro h e hdet
    have hc : chooseTarget L tl inp opts = FormatPNG := by
      simp [chooseTarget, h, hdet]
    rw [hp, hc, encode_png]
  have c6 : opts.Target ≠ "" → opts.Target ≠ FormatJPEG → opts.Target ≠ FormatPNG →
      Process L tl inp opts = .error (.unsupported none) := by
    intro h0 h1 h2
    have hc : chooseTarget L tl inp opts = opts.Target := by
      unfold chooseTarget
      rw [if_neg h0]
    rw [hp, hc]
    simp only [encode, if_neg h1, if_neg h2]
  have jpegCase : Process L tl inp opts = asJPEG → ∀ out ct,
      Process L tl inp opts = .ok (out, ct) →
      (ct = "image/jpeg" ∧ Process L tl inp opts = asJPEG) ∨
      (ct = "image/png" ∧ Process L tl inp opts = asPNG) :=
    fun h out ct hok => Or.inl ⟨map_ok_contentType _ _ out ct (h ▸ hok), h⟩
  have pngCase : Process L tl inp opts = asPNG → ∀ out ct,
      Process L tl inp opts = .ok (out, ct) →
      (ct = "image/jpeg" ∧ Process L tl inp opts = asJPEG) ∨
      (ct = "image/png" ∧ Process L tl inp opts = asPNG) :=
    fun h out ct hok => Or.inr ⟨map_ok_contentType _ _ out ct (h ▸ hok), h⟩
  refine ⟨c1, c2, c3, c4, c5, c6, ?_⟩
  intro out ct hok
  by_cases h0 : opts.Target = ""
  · cases hdf : DetectFormat L tl inp with
    | error e => exact pngCase (c5 h0 e hdf) out ct hok
    | ok f =>
      rcases detectFormat_ok L tl inp f hdf with hf | hf
      · subst hf
        exact jpegCase (c3 h0 hdf) out ct hok
      · subst hf
        exact pngCase (c4 h0 hdf) out ct hok
  · by_cases h1 : opts.Target = FormatJPEG
    · exact jpegCase (c1 h1) out ct hok
    · by_cases h2 : opts.Target = FormatPNG
      · exact pngCase (c2 h2) out ct hok
      · rw [c6 h0 h1 h2] at hok
        cases hok

/-- C12 at the example codecs: an explicit target wins over the format of the bytes, an
unset target keeps the detected format, an undetected format becomes PNG, and an
unsupported target is an error. -/
theorem process_output_format_witness :
    Process demoLib id [137, 80, 7] ⟨"jpeg", 0, true, 0, 0, false⟩
      = .ok ([255, 216, 85, 128], "image/jpeg") ∧
    Process demoLib id [255, 216, 7] ⟨"png", 0, true, 0, 0, false⟩
      = .ok ([137, 80, 128], "image/png") ∧
    Process demoLib id [255, 216, 7] ⟨"", 0, true, 0, 0, false⟩
      = .ok ([255, 216, 85, 128], "image/jpeg") ∧
    Process demoLib id [137, 80, 7] ⟨"", 0, true, 0, 0, false⟩
      = .ok ([137, 80, 128], "image/png") ∧
    Process gifLib id [71, 73, 70] ⟨"", 0, true, 0, 0, false⟩
      = .ok ([137, 80, 128, 128, 128], "image/png") ∧
    Process demoLib id [137, 80, 7] ⟨"gif", 0, false, 0, 0, false⟩
      = .error (.unsupported none) := by
  refine ⟨?_, ?_, ?_, ?_, ?_, ?_⟩
  · rw [(process_output_format demoLib id [137, 80, 7] ⟨"jpeg", 0, true, 0, 0, false⟩ [7]
      (by decide) (by decide)).1 (by decide)]
    decide
  · rw [(process_output_format demoLib id [255, 216, 7] ⟨"png", 0, true, 0, 0, false⟩ [7]
      (by decide) (by decide)).2.1 (by decide)]
    decide
  · rw [(process_output_format demoLib id [255, 216, 7] ⟨"", 0, true, 0, 0, false⟩ [7]
      (by decide) (by decide)).2.2.1 (by decide) (by decide)]
    decide
  · rw [(process_output_format demoLib id [137, 80, 7] ⟨"", 0, true, 0, 0, false⟩ [7]
      (by decide) (by decide)).2.2.2.1 (by decide) (by decide)]
    decide
  · rw [(process_output_format gifLib id [71, 73, 70] ⟨"", 0, true, 0, 0, false⟩
      [71, 73, 70] (by decide) (by decide)).2.2.2.2.1 (by decide)
      (.unsupported (some "gif")) (by decide)]
    decide
  · exact (process_output_format demoLib id [137, 80, 7] ⟨"gif", 0, false, 0, 0, false⟩ [7]
      (by decide) (by decide)).2.2.2.2.2.1 (by decide) (by decide) (by decide)

end Imgapi
